import Mathlib

/-!
# Verification of the Echo-DND dual-pathway UNet backbone

Shallow embedding of `src/guided_diffusion/unet.py` (repository
`abdur75648/Echo-DND`).  The embedding works at three layers:

* a *shape calculus* over `Shape = (batch, channels, height, width)` that
  mirrors the construction of `EchoDNDUNet.__init__` (encoder / middle /
  decoder / output-projection module lists, the `input_block_chans` channel
  ledger, the running downsample counter `ds`) and the shape behaviour of
  `EchoDNDUNet.forward` (skip stacks, anchor addition, concatenations, the
  per-stage channel checks that PyTorch convolutions / group norms enforce);
* a *value-level* model over `ℚ` of `ResBlock._forward` (used for the
  zero-initialisation claim), with convolution, linear and resampling layers
  given concretely and the non-rational pointwise layers (GroupNorm, SiLU,
  Dropout) passed in as arbitrary functions — the claims proved about this
  model hold for every choice of those functions;
* a *value-level* model over `ℝ` of `QKVAttentionLegacy.forward` and
  `QKVAttention.forward` (softmax needs `Real.exp`).

Tensors are total functions from `Nat` (or `Int` for spatially padded data)
indices; shapes are tracked separately where a claim is about shapes.
Fallible steps (PyTorch shape errors, Python `assert`, attribute lookup,
`NotImplementedError`) are returned as `Option` / `Except` values.
-/

namespace EchoDND

/-- A rank-4 tensor shape `(batch, channels, height, width)`, the shape of
every feature map flowing through the 2-D backbone (`dims = 2`). -/
structure Shape where
  n : Nat
  c : Nat
  h : Nat
  w : Nat
deriving DecidableEq, Repr

/-- Constructor arguments of `EchoDNDUNet.__init__` that are relevant to the
structure and shape behaviour of the network.  Omitted arguments (`image_size`,
`dropout`, `dims` (fixed to 2 here), `use_checkpoint`, `use_fp16`,
`num_heads`, `num_head_channels`, `num_heads_upsample`, `use_scale_shift_norm`,
`use_new_attention_order`) do not influence any shape computed below:
they select numeric precision, checkpointing, attention internals or the
conditioning arithmetic inside a block, all of which are shape-preserving.
`attention_resolutions` is a set in the source; only membership is ever used,
so a list models it.  `num_classes=None` is modelled by `Option Nat`. -/
structure Config where
  in_channels : Nat
  model_channels : Nat
  out_channels_gaussian : Nat
  out_channels_bernoulli : Nat
  num_res_blocks : Nat
  attention_resolutions : List Nat
  channel_mult : List Nat
  conv_resample : Bool
  num_classes : Option Nat
  resblock_updown : Bool
  high_way : Bool
deriving DecidableEq, Repr

/-- One encoder stage (`TimestepEmbedSequential` appended to
`input_blocks_gaussian`).  A stage is either the initial convolution, a
residual stage (`ResBlock` with `out_channels = cout`, optionally followed by
an `AttentionBlock` when `attn = true`), or — when `down = true` — a pure
downsampling transition (`ResBlock(..., down=True)` when `resblock_updown`
else `Downsample`); `downConv = true` means the transition halves the spatial
size with a stride-2 convolution (`Downsample` with `use_conv = True`), else
with a stride-2 average pool.  `ds` records the value of the resolution
counter when the stage was created. -/
structure EncStage where
  cin : Nat
  cout : Nat
  attn : Bool
  down : Bool
  downConv : Bool
  ds : Nat
deriving DecidableEq, Repr

/-- One decoder stage (`TimestepEmbedSequential` appended to
`output_blocks_gaussian`): a `ResBlock` taking `cin = ch + ich` channels
(current features concatenated with one popped skip tensor) to `cout`
channels, optionally followed by an `AttentionBlock` (`attn`), optionally
followed by an upsampling sub-block; `up = some (uin, uout)` records the
upsampling sub-block's input and output channel count
(`ResBlock(..., up=True)` when `resblock_updown` else `Upsample`). -/
structure DecStage where
  cin : Nat
  cout : Nat
  attn : Bool
  up : Option (Nat × Nat)
  ds : Nat
deriving DecidableEq, Repr

/-- Spatial size after one downsampling step: a stride-2 3×3 convolution with
padding 1 maps `h ↦ (h - 1) / 2 + 1` (PyTorch's `⌊(h + 2·1 - 3)/2⌋ + 1`), a
kernel-2 stride-2 average pool maps `h ↦ h / 2`. -/
def downsampleDim (useConv : Bool) (h : Nat) : Nat :=
  if useConv then (h - 1) / 2 + 1 else h / 2

/-- The inner loop `for _ in range(num_res_blocks)` of the encoder
construction (unet.py lines 513-538): each iteration appends a residual stage
taking the running `ch` to `mult * model_channels` channels, with an
`AttentionBlock` appended when `ds ∈ attention_resolutions`, and records the
new channel count in the ledger.  Returns (stages, ledger entries pushed,
final `ch`). -/
def encInnerLoop (C : Nat) (A : List Nat) (mult ds : Nat) :
    Nat → Nat → List EncStage × List Nat × Nat
  | 0, ch => ([], [], ch)
  | n + 1, ch =>
      let st : EncStage :=
        { cin := ch, cout := mult * C, attn := decide (ds ∈ A),
          down := false, downConv := false, ds := ds }
      let rest := encInnerLoop C A mult ds n (mult * C)
      (st :: rest.1, (mult * C) :: rest.2.1, rest.2.2)

/-- The outer loop `for level, mult in enumerate(channel_mult)` of the encoder
construction (unet.py lines 511-565).  After the residual stages of a level
that is not the last (`level != len(channel_mult) - 1`), a downsampling
transition with `out_ch = ch` is appended, `ch` is pushed onto the ledger and
`ds` is doubled.  `uconv` tells whether a plain `Downsample` transition uses a
convolution (`conv_resample`); `resblock_updown` transitions always pool.
Returns (stages, ledger entries pushed, final `ch`, final `ds`). -/
def encLevels (C : Nat) (A : List Nat) (R : Nat) (updown uconv : Bool) :
    List Nat → Nat → Nat → List EncStage × List Nat × Nat × Nat
  | [], ch, ds => ([], [], ch, ds)
  | mult :: rest, ch, ds =>
      let inner := encInnerLoop C A mult ds R ch
      match rest with
      | [] => (inner.1, inner.2.1, inner.2.2, ds)
      | r :: rs =>
          let out_ch := inner.2.2
          let dstage : EncStage :=
            { cin := inner.2.2, cout := out_ch, attn := false,
              down := true, downConv := !updown && uconv, ds := ds }
          let deeper := encLevels C A R updown uconv (r :: rs) out_ch (ds * 2)
          (inner.1 ++ dstage :: deeper.1, inner.2.1 ++ out_ch :: deeper.2.1,
           deeper.2.2.1, deeper.2.2.2)

/-- Full encoder construction (unet.py lines 499-566): the initial 3×3
convolution `conv_nd(dims, in_channels, model_channels)` (whose output channel
count seeds the ledger as `input_block_chans = [model_channels]`) followed by
the per-level stages.  Returns (stages, ledger, final `ch`, final `ds`). -/
def encoderBuild (cfg : Config) : List EncStage × List Nat × Nat × Nat :=
  let C := cfg.model_channels
  let initStage : EncStage :=
    { cin := cfg.in_channels, cout := C, attn := false,
      down := false, downConv := false, ds := 1 }
  let lv := encLevels C cfg.attention_resolutions cfg.num_res_blocks
      cfg.resblock_updown cfg.conv_resample cfg.channel_mult C 1
  (initStage :: lv.1, C :: lv.2.1, lv.2.2.1, lv.2.2.2)

/-- `self.input_blocks_gaussian` as built by the constructor. -/
def input_blocks_gaussian (cfg : Config) : List EncStage := (encoderBuild cfg).1

/-- `input_block_chans`, the construction-time channel ledger, in push order. -/
def input_block_chans (cfg : Config) : List Nat := (encoderBuild cfg).2.1

/-- The running channel count `ch` after encoder construction. -/
def encoderChFinal (cfg : Config) : Nat := (encoderBuild cfg).2.2.1

/-- The resolution counter `ds` after encoder construction. -/
def encoderDsFinal (cfg : Config) : Nat := (encoderBuild cfg).2.2.2

/-- `self.middle_block_gaussian` (unet.py lines 569-593):
`ResBlock(ch) → AttentionBlock(ch) → ResBlock(ch)`, all shape-preserving; its
shape behaviour is fully described by the channel count `ch` it was built
with. -/
def middle_block_gaussian (cfg : Config) : Nat := encoderChFinal cfg

/-- The inner loop `for i in range(num_res_blocks + 1)` of the decoder
construction (unet.py lines 599-640), counted down by the fuel argument
(`i = num_res_blocks` corresponds to fuel `0 + 1`).  Each iteration pops
`ich = input_block_chans.pop()` from the ledger (modelled by taking the head
of the reversed ledger), appends a residual stage with
`cin = ch + ich, cout = mult * model_channels`, an attention block when
`ds ∈ attention_resolutions`, and — on the last iteration of a level with
`level != 0` (`lvlPos`) — an upsampling sub-block with
`out_ch = ch` (so `up = some (mult*C, mult*C)`).  Returns (stages, final
`ch`, remaining ledger). -/
def decInner (C : Nat) (A : List Nat) (mult ds : Nat) (lvlPos : Bool) :
    Nat → Nat → List Nat → List DecStage × Nat × List Nat
  | 0, ch, lg => ([], ch, lg)
  | n + 1, ch, lg =>
      let ich := lg.headD 0
      let chAfter := mult * C
      let up : Option (Nat × Nat) :=
        if lvlPos && n == 0 then
          let out_ch := chAfter
          some (chAfter, out_ch)
        else none
      let st : DecStage :=
        { cin := ch + ich, cout := chAfter, attn := decide (ds ∈ A),
          up := up, ds := ds }
      let rest := decInner C A mult ds lvlPos n chAfter lg.tail
      (st :: rest.1, rest.2.1, rest.2.2)

/-- Decoder construction for the levels with `level != 0`.  The source loop
`for level, mult in list(enumerate(channel_mult))[::-1]` visits levels in
reverse order; `decAllPos ms` handles the sub-list `ms` of multipliers at
levels `1 …` (deepest level first, i.e. the last element of `ms` first), each
with the `level != 0` flag set, halving `ds` after each such level
(`ds //= 2`).  Returns (stages, final `ch`, final `ds`, remaining ledger). -/
def decAllPos (C : Nat) (A : List Nat) (R : Nat) :
    List Nat → Nat → Nat → List Nat → List DecStage × Nat × Nat × List Nat
  | [], ch, ds, lg => ([], ch, ds, lg)
  | mult :: rest, ch, ds, lg =>
      let deep := decAllPos C A R rest ch ds lg
      let lvl := decInner C A mult deep.2.2.1 true (R + 1) deep.2.1 deep.2.2.2
      (deep.1 ++ lvl.1, lvl.2.1, deep.2.2.1 / 2, lvl.2.2)

/-- Full decoder construction (unet.py lines 596-640): visit the levels of
`channel_mult` in reverse; all levels except level 0 get the upsampling
sub-block and halve `ds`.  The ledger is consumed by `.pop()` (from the end of
the push-order list), modelled by consuming the reversed ledger from the
head.  Returns (stages, final `ch`, remaining (reversed) ledger). -/
def decoderBuild (cfg : Config) : List DecStage × Nat × List Nat :=
  let C := cfg.model_channels
  let lgRev := (input_block_chans cfg).reverse
  match cfg.channel_mult with
  | [] => ([], encoderChFinal cfg, lgRev)
  | m0 :: rest =>
      let deep := decAllPos C cfg.attention_resolutions cfg.num_res_blocks rest
        (encoderChFinal cfg) (encoderDsFinal cfg) lgRev
      let lvl0 := decInner C cfg.attention_resolutions m0 deep.2.2.1 false
        (cfg.num_res_blocks + 1) deep.2.1 deep.2.2.2
      (deep.1 ++ lvl0.1, lvl0.2.1, lvl0.2.2)

/-- `self.output_blocks_gaussian` as built by the constructor. -/
def output_blocks_gaussian (cfg : Config) : List DecStage := (decoderBuild cfg).1

/-- The running channel count `ch` after decoder construction. -/
def decoderChFinal (cfg : Config) : Nat := (decoderBuild cfg).2.1

/-- What remains of the (reversed) channel ledger after decoder
construction. -/
def decoderLeftoverLedger (cfg : Config) : List Nat := (decoderBuild cfg).2.2

/-- The final output projection `nn.Sequential(normalization(ch), SiLU(),
zero_module(conv_nd(dims, model_channels, out_ch, 3, padding=1)))`
(unet.py lines 644-648 and 656-660): `normCh` is the channel count given to
`normalization` (the post-decoder `ch`), `convIn` the input channel count of
the final convolution (hard-coded `model_channels` in the source), `outCh`
its output channel count. -/
structure OutProj where
  normCh : Nat
  convIn : Nat
  outCh : Nat
deriving DecidableEq, Repr

/-- `self.out_gaussian` (unet.py lines 644-648). -/
def out_gaussian (cfg : Config) : OutProj :=
  { normCh := decoderChFinal cfg, convIn := cfg.model_channels,
    outCh := cfg.out_channels_gaussian }

/-- `self.input_blocks_bernoulli = deepcopy(self.input_blocks_gaussian)`
(unet.py line 652): a deep copy has the same structure, so as a value it is
the same stage list. -/
def input_blocks_bernoulli (cfg : Config) : List EncStage :=
  input_blocks_gaussian cfg

/-- `self.middle_block_bernoulli = deepcopy(self.middle_block_gaussian)`
(unet.py line 653). -/
def middle_block_bernoulli (cfg : Config) : Nat := middle_block_gaussian cfg

/-- `self.output_blocks_bernoulli = deepcopy(self.output_blocks_gaussian)`
(unet.py line 654). -/
def output_blocks_bernoulli (cfg : Config) : List DecStage :=
  output_blocks_gaussian cfg

/-- `self.out_bernoulli` (unet.py lines 656-660): built afresh (not copied),
with `out_channels_bernoulli` as the final convolution's output width. -/
def out_bernoulli (cfg : Config) : OutProj :=
  { normCh := decoderChFinal cfg, convIn := cfg.model_channels,
    outCh := cfg.out_channels_bernoulli }

/-! ## Shape semantics of one forward call -/

/-- Shape behaviour of one encoder stage.  Every layer inside the stage
(GroupNorm, the 3×3 convolutions, attention) requires the input channel count
to equal the count it was constructed with, and PyTorch raises otherwise;
residual and attention stages preserve the spatial size, a downsampling
transition halves it per `downsampleDim`. -/
def EncStage.apply (s : EncStage) (sh : Shape) : Option Shape :=
  if sh.c = s.cin then
    if s.down then
      some ⟨sh.n, s.cout, downsampleDim s.downConv sh.h, downsampleDim s.downConv sh.w⟩
    else
      some ⟨sh.n, s.cout, sh.h, sh.w⟩
  else none

/-- Shape behaviour of one decoder stage, given the skip tensor popped for
it.  `th.cat([h, hs.pop()], dim=1)` requires all non-channel dimensions to
match and adds the channel counts; the residual block requires the result to
have `cin` channels; an upsampling sub-block doubles the spatial size
(`F.interpolate(scale_factor=2, mode="nearest")`, with the optional following
convolution shape-preserving). -/
def DecStage.apply (s : DecStage) (skip cur : Shape) : Option Shape :=
  if skip.n = cur.n ∧ skip.h = cur.h ∧ skip.w = cur.w then
    if cur.c + skip.c = s.cin then
      match s.up with
      | some _ => some ⟨cur.n, s.cout, cur.h * 2, cur.w * 2⟩
      | none => some ⟨cur.n, s.cout, cur.h, cur.w⟩
    else none
  else none

/-- Shape behaviour of `th.cat([a, b], dim=1)`. -/
def catShapes (a b : Shape) : Option Shape :=
  if a.n = b.n ∧ a.h = b.h ∧ a.w = b.w then
    some ⟨a.n, a.c + b.c, a.h, a.w⟩
  else none

/-- Shape behaviour of `h + bias` for the anchor addition: the anchor bias is
added elementwise, so its shape must equal the feature map's (the MFCM
contract guarantees batch- and spatial-matching anchors, so no broadcasting
is involved). -/
def addBias (bias sh : Shape) : Option Shape :=
  if bias = sh then some sh else none

/-- Run the encoder stages of a forward call from a given input shape,
recording the shape pushed onto the skip stack after each stage (in push
order) and the final shape. -/
def runEnc : List EncStage → Shape → Option (List Shape × Shape)
  | [], sh => some ([], sh)
  | s :: rest, sh => do
      let sh1 ← s.apply sh
      let (ps, f) ← runEnc rest sh1
      pure (sh1 :: ps, f)

/-- Run the encoder stages with the stage-0 anchor addition of
`EchoDNDUNet.forward` (unet.py lines 701-710): after the first stage (and
only there, `ind == 0`), the anchor bias is added before the result is pushed
onto the skip stack. -/
def runEncWithAnchor : List EncStage → Shape → Shape → Option (List Shape × Shape)
  | [], _, sh => some ([], sh)
  | s :: rest, bias, sh => do
      let sh1 ← s.apply sh
      let sh2 ← addBias bias sh1
      let (ps, f) ← runEnc rest sh2
      pure (sh2 :: ps, f)

/-- Shape behaviour of the middle block: three shape-preserving layers all
built at channel count `ch`. -/
def middleApply (ch : Nat) (sh : Shape) : Option Shape :=
  if sh.c = ch then some sh else none

/-- Run the decoder stages of a forward call.  `skips` is the runtime skip
stack in pop order (the reverse of push order); each stage pops exactly one
entry (`hs.pop()` on an empty list raises, hence `none`).  Returns the final
shape and the unconsumed part of the stack. -/
def runDec : List DecStage → List Shape → Shape → Option (Shape × List Shape)
  | [], skips, sh => some (sh, skips)
  | s :: rest, skips, sh =>
      match skips with
      | [] => none
      | sk :: skips' => do
          let sh1 ← s.apply sk sh
          runDec rest skips' sh1

/-- Shape behaviour of the output projection: `normalization(normCh)` requires
`normCh` input channels, the final convolution requires `convIn` input
channels and produces `outCh` channels, spatial size preserved (3×3, stride 1,
padding 1). -/
def outProjApply (p : OutProj) (sh : Shape) : Option Shape :=
  if sh.c = p.normCh then
    if sh.c = p.convIn then some ⟨sh.n, p.outCh, sh.h, sh.w⟩ else none
  else none

/-- One pathway of a forward call: encoder stages (with stage-0 anchor
addition), middle block, decoder stages consuming the reversed skip stack,
then the output projection.  The interleaved execution of both pathways in
the source loop is shape-equivalent to running each pathway separately, since
they share no state. -/
def pathwayRun (enc : List EncStage) (mid : Nat) (dec : List DecStage)
    (proj : OutProj) (bias h0 : Shape) : Option Shape := do
  let (pushed, hEnc) ← runEncWithAnchor enc bias h0
  let hMid ← middleApply mid hEnc
  let (hDec, _) ← runDec dec pushed.reverse hMid
  outProjApply proj hDec

/-- Modelled from the spec: the Multi-scale Fusion Conditioning Module
(`HRNet`, `guided_diffusion/hrnet.py`, not included in `src/`).  Per §6 of
the spec its anchor output `(anchor_low, anchor_high)` has batch size
matching the input image and spatial size equal to the backbone's stage-0
feature map (= the input spatial size); the anchor channel widths `cl` and
`chg` are parameters of the model, constrained in the theorems by the
contract `2 * cl + chg = model_channels`.  The calibration map is handled
separately as an arbitrary passed-through value. -/
def mfcmShape (cl chg : Nat) (img : Shape) : Shape × Shape :=
  (⟨img.n, cl, img.h, img.w⟩, ⟨img.n, chg, img.h, img.w⟩)

/-- The ways `EchoDNDUNet.forward` can raise. -/
inductive FwdErr where
  /-- `assert x.shape[1] == 3` fails. -/
  | assertChannels
  /-- `assert (y is not None) == (self.num_classes is not None)` fails. -/
  | assertY
  /-- `raise NotImplementedError` on the class-conditional path. -/
  | notImplemented
  /-- `self.mfcm` does not exist (`high_way=False`): `AttributeError`. -/
  | attributeError
  /-- A tensor operation raises a shape error (channel mismatch in a
  convolution or GroupNorm, `th.cat` size mismatch, pop from empty stack). -/
  | shapeError
deriving DecidableEq, Repr

/-- Shape-level model of `EchoDNDUNet.forward` (unet.py lines 671-727).
Checks happen in source order: the 3-channel assertion; the
`y`-iff-class-conditional assertion; the `NotImplementedError` raise when the
model is class-conditional; the MFCM call `self.mfcm_forward(x_img)` (an
`AttributeError` when `high_way=False` left `self.mfcm` unset); then the two
pathways.  `x[:, 0:1], x[:, 1:2], x[:, 2:3]` slice out three single-channel
maps; each pathway input is `th.cat([x_img, noise], dim=1)`; the `.type`
casts change only dtype, never shape.  `cl`/`chg` are the MFCM anchor widths
and `cal` the calibration map (modelled from the spec, see `mfcmShape`);
`cal` is returned unmodified as the third component. -/
def forwardShapes (cfg : Config) (cl chg : Nat) (cal : Shape) (x : Shape)
    (y : Option Unit) : Except FwdErr (Shape × Shape × Shape) :=
  if x.c = 3 then
    if y.isSome = cfg.num_classes.isSome then
      if cfg.num_classes.isSome then
        .error .notImplemented
      else if cfg.high_way then
        let x_img : Shape := ⟨x.n, 1, x.h, x.w⟩
        let noise : Shape := ⟨x.n, 1, x.h, x.w⟩
        let anch := mfcmShape cl chg x_img
        let pipe : Option (Shape × Shape) := do
          let bias0 ← catShapes anch.1 anch.1
          let bias ← catShapes bias0 anch.2
          let h0 ← catShapes x_img noise
          let outG ← pathwayRun (input_blocks_gaussian cfg)
            (middle_block_gaussian cfg) (output_blocks_gaussian cfg)
            (out_gaussian cfg) bias h0
          let outB ← pathwayRun (input_blocks_bernoulli cfg)
            (middle_block_bernoulli cfg) (output_blocks_bernoulli cfg)
            (out_bernoulli cfg) bias h0
          pure (outG, outB)
        match pipe with
        | some (g, b) => .ok (g, b, cal)
        | none => .error .shapeError
      else .error .attributeError
    else .error .assertY
  else .error .assertChannels

/-- The configurations under which construction and forward pass are
shape-consistent: two channels feed each pathway's initial convolution
(`in_channels = 2`, matching the `cat` of the image slice with one noise
slice), no class conditioning (its forward path raises unconditionally), the
MFCM present (`high_way`, since `forward` calls it unconditionally), and a
non-empty `channel_mult` starting at multiplier 1 (the final output
convolution's input width is hard-coded to `model_channels`, which equals the
post-decoder `ch = model_channels * channel_mult[0]` exactly when
`channel_mult[0] = 1`). -/
def ValidConfig (cfg : Config) : Prop :=
  cfg.in_channels = 2 ∧ cfg.num_classes = none ∧ cfg.high_way = true ∧
    cfg.channel_mult ≠ [] ∧ cfg.channel_mult.headD 0 = 1

instance (cfg : Config) : Decidable (ValidConfig cfg) := by
  unfold ValidConfig; infer_instance

/-! ## AttentionBlock construction -/

/-- Ways `AttentionBlock.__init__` can raise. -/
inductive AttnInitErr where
  /-- The `assert channels % num_head_channels == 0` fails. -/
  | assertDivisibility
  /-- `channels % num_head_channels` with `num_head_channels = 0`:
  Python raises `ZeroDivisionError`. -/
  | zeroDivision
deriving DecidableEq, Repr

/-- Whether a modelled construction raised. -/
def raised {ε α : Type} : Except ε α → Bool
  | .error _ => true
  | .ok _ => false

/-- `AttentionBlock.__init__` (unet.py lines 265-292): with the sentinel
`num_head_channels = -1` the configured `num_heads` is used; otherwise the
constructor asserts `channels % num_head_channels == 0` and uses
`channels // num_head_channels` heads.  `num_head_channels` is an `Int`
because of the `-1` sentinel; `%` and `//` follow Python semantics, which
agree with Lean's `Int.emod`/exact division on the reachable cases
(`a % b = 0 ↔ b ∣ a` in both). -/
def attentionBlockInit (channels num_heads : Nat) (num_head_channels : Int) :
    Except AttnInitErr Int :=
  if num_head_channels = -1 then
    .ok (num_heads : Int)
  else if num_head_channels = 0 then
    .error .zeroDivision
  else if (channels : Int) % num_head_channels = 0 then
    .ok ((channels : Int) / num_head_channels)
  else
    .error .assertDivisibility

/-! ## Concrete example configuration

The configuration named by the spec's end-to-end test:
`image_size=64, in_channels=2, model_channels=32, channel_mult=(1,2,4),
num_res_blocks=1, attention_resolutions={2}, out_channels_gaussian=2,
out_channels_bernoulli=1` (remaining flags at their constructor defaults). -/

/-- The spec §8 end-to-end example configuration. -/
def cfgEx : Config :=
  { in_channels := 2, model_channels := 32, out_channels_gaussian := 2,
    out_channels_bernoulli := 1, num_res_blocks := 1,
    attention_resolutions := [2], channel_mult := [1, 2, 4],
    conv_resample := true, num_classes := none, resblock_updown := false,
    high_way := true }

/-! ## Basic lemmas about the construction -/

theorem encInnerLoop_length (C : Nat) (A : List Nat) (mult ds : Nat) :
    ∀ n ch, (encInnerLoop C A mult ds n ch).1.length = n ∧
      (encInnerLoop C A mult ds n ch).2.1.length = n := by
  intro n
  induction n with
  | zero => intro ch; simp [encInnerLoop]
  | succ k ih => intro ch; simp [encInnerLoop, ih]

theorem encInnerLoop_chans (C : Nat) (A : List Nat) (mult ds : Nat) :
    ∀ n ch, (encInnerLoop C A mult ds n ch).2.1 = List.replicate n (mult * C) := by
  intro n
  induction n with
  | zero => intro ch; simp [encInnerLoop]
  | succ k ih => intro ch; simp [encInnerLoop, ih, List.replicate_succ]

theorem encInnerLoop_chFinal (C : Nat) (A : List Nat) (mult ds : Nat) :
    ∀ n ch, (encInnerLoop C A mult ds n ch).2.2 =
      if n = 0 then ch else mult * C := by
  intro n
  induction n with
  | zero => intro ch; simp [encInnerLoop]
  | succ k ih =>
      intro ch
      simp only [encInnerLoop, ih]
      cases k <;> simp

theorem encLevels_length (C : Nat) (A : List Nat) (R : Nat) (ud uc : Bool) :
    ∀ ms ch ds, (encLevels C A R ud uc ms ch ds).1.length
        = ms.length * R + (ms.length - 1) ∧
      (encLevels C A R ud uc ms ch ds).2.1.length
        = ms.length * R + (ms.length - 1) := by
  intro ms
  induction ms with
  | nil => intro ch ds; simp [encLevels]
  | cons m rest ih =>
      intro ch ds
      cases rest with
      | nil => simpa [encLevels] using encInnerLoop_length C A m ds R ch
      | cons r rs =>
          obtain ⟨hI1, hI2⟩ := encInnerLoop_length C A m ds R ch
          obtain ⟨hD1, hD2⟩ := ih (encInnerLoop C A m ds R ch).2.2 (ds * 2)
          constructor
          · simp only [encLevels, List.length_append, List.length_cons]
            rw [hI1, hD1]
            simp only [List.length_cons, Nat.succ_mul]
            omega
          · show (_ ++ _ :: _ : List Nat).length = _
            simp only [List.length_append, List.length_cons]
            rw [hI2, hD2]
            simp only [List.length_cons, Nat.succ_mul]
            omega

theorem decInner_length (C : Nat) (A : List Nat) (mult ds : Nat) (lvlPos : Bool) :
    ∀ n ch lg, (decInner C A mult ds lvlPos n ch lg).1.length = n ∧
      (decInner C A mult ds lvlPos n ch lg).2.2 = lg.drop n := by
  intro n
  induction n with
  | zero => intro ch lg; simp [decInner]
  | succ k ih =>
      intro ch lg
      obtain ⟨h1, h2⟩ := ih (mult * C) lg.tail
      constructor
      · simp only [decInner, List.length_cons, h1]
      · show (decInner C A mult ds lvlPos k (mult * C) lg.tail).2.2 = _
        rw [h2, ← List.drop_one, List.drop_drop]
        congr 1
        omega

theorem decAllPos_length (C : Nat) (A : List Nat) (R : Nat) :
    ∀ ms ch ds lg, (decAllPos C A R ms ch ds lg).1.length = ms.length * (R + 1) ∧
      (decAllPos C A R ms ch ds lg).2.2.2 = lg.drop (ms.length * (R + 1)) := by
  intro ms
  induction ms with
  | nil => intro ch ds lg; simp [decAllPos]
  | cons m rest ih =>
      intro ch ds lg
      obtain ⟨hD1, hD2⟩ := ih ch ds lg
      obtain ⟨hI1, hI2⟩ := decInner_length C A m (decAllPos C A R rest ch ds lg).2.2.1
        true (R + 1) (decAllPos C A R rest ch ds lg).2.1
        (decAllPos C A R rest ch ds lg).2.2.2
      constructor
      · show (_ ++ _ : List DecStage).length = _
        rw [List.length_append, hD1, hI1]
        simp only [List.length_cons]
        ring
      · show (decInner C A m (decAllPos C A R rest ch ds lg).2.2.1 true (R + 1)
            (decAllPos C A R rest ch ds lg).2.1
            (decAllPos C A R rest ch ds lg).2.2.2).2.2 = _
        rw [hI2, hD2, List.drop_drop]
        congr 1
        simp only [List.length_cons]
        ring

/-! ## Claim C2 — `high_way=False` and the MFCM call

`EchoDNDUNet.__init__` assigns `self.mfcm` only under `if high_way:`
(unet.py lines 662-664) and stores no flag recording whether it did;
`forward` calls `self.mfcm_forward(x_img)` unconditionally (line 696), so
with `high_way=False` the attribute lookup `self.mfcm` raises
`AttributeError` on every forward call — the anchor-addition step is never
reached, but not skipped gracefully either. -/

/-- C2: with the example configuration except `high_way=False`, a forward
call on the spec's concrete input `x : (2,3,64,64)` raises `AttributeError`
at the `self.mfcm_forward` call instead of skipping the anchor addition:
the code contradicts the claim (and its own docstring, which says the MFCM
is initialized *and used* only `If True`). -/
theorem c2_highway_false_forward_raises :
    forwardShapes { cfgEx with high_way := false } 12 8
      ⟨2, 1, 64, 64⟩ ⟨2, 3, 64, 64⟩ none = .error .attributeError := by
  rfl

/-! ## Claim C7 — class-conditioning checks -/

/-- C7: for any 3-channel input, `forward` fails the
`assert (y is not None) == (self.num_classes is not None)` when `y` is
supplied to a non-class-conditional backbone, and when `y` is omitted from a
class-conditional one; and when class-conditioning is enabled and `y` is
supplied, it always raises `NotImplementedError` before producing output. -/
theorem c7_class_conditioning_errors (cfg : Config) (cl chg : Nat)
    (cal x : Shape) (h3 : x.c = 3) :
    (cfg.num_classes = none →
      forwardShapes cfg cl chg cal x (some ()) = .error .assertY) ∧
    (∀ k : Nat, cfg.num_classes = some k →
      forwardShapes cfg cl chg cal x none = .error .assertY) ∧
    (∀ k : Nat, cfg.num_classes = some k →
      forwardShapes cfg cl chg cal x (some ()) = .error .notImplemented) := by
  refine ⟨fun hnc => ?_, fun k hnc => ?_, fun k hnc => ?_⟩ <;>
    simp [forwardShapes, h3, hnc]

/-- Witness for C7 at the example configuration (and a class-conditional
variant of it) on the concrete input shape `(2,3,64,64)`. -/
theorem c7_witness :
    (⟨2, 3, 64, 64⟩ : Shape).c = 3 ∧
      forwardShapes cfgEx 12 8 ⟨2, 1, 64, 64⟩ ⟨2, 3, 64, 64⟩ (some ())
        = .error .assertY ∧
      forwardShapes { cfgEx with num_classes := some 4 } 12 8
        ⟨2, 1, 64, 64⟩ ⟨2, 3, 64, 64⟩ none = .error .assertY ∧
      forwardShapes { cfgEx with num_classes := some 4 } 12 8
        ⟨2, 1, 64, 64⟩ ⟨2, 3, 64, 64⟩ (some ()) = .error .notImplemented :=
  ⟨by decide,
   (c7_class_conditioning_errors cfgEx 12 8 ⟨2, 1, 64, 64⟩ ⟨2, 3, 64, 64⟩
      (by decide)).1 (by decide),
   (c7_class_conditioning_errors { cfgEx with num_classes := some 4 } 12 8
      ⟨2, 1, 64, 64⟩ ⟨2, 3, 64, 64⟩ (by decide)).2.1 4 (by decide),
   (c7_class_conditioning_errors { cfgEx with num_classes := some 4 } 12 8
      ⟨2, 1, 64, 64⟩ ⟨2, 3, 64, 64⟩ (by decide)).2.2 4 (by decide)⟩

/-! ## Claim C8 — attention head divisibility -/

/-- C8: whenever a per-head channel width is configured
(`num_head_channels != -1`) and the channel count is not evenly divisible by
it, `AttentionBlock.__init__` raises at construction time (the divisibility
assertion, or a `ZeroDivisionError` for width 0). -/
theorem c8_attention_head_divisibility (channels num_heads : Nat)
    (num_head_channels : Int) (hsent : num_head_channels ≠ -1)
    (hndvd : ¬ num_head_channels ∣ (channels : Int)) :
    raised (attentionBlockInit channels num_heads num_head_channels) = true := by
  unfold attentionBlockInit
  rw [if_neg hsent]
  rcases eq_or_ne num_head_channels 0 with h0 | h0
  · rw [if_pos h0]; rfl
  · rw [if_neg h0, if_neg]
    · rfl
    · intro hmod
      exact hndvd (Int.dvd_of_emod_eq_zero hmod)

/-- Witness for C8: `channels = 5`, `num_head_channels = 2` is rejected. -/
theorem c8_witness :
    (2 : Int) ≠ -1 ∧ ¬ (2 : Int) ∣ (5 : Int) ∧
      raised (attentionBlockInit 5 1 2) = true :=
  ⟨by decide, by decide, c8_attention_head_divisibility 5 1 2 (by decide) (by decide)⟩

/-! ## Claim C9 — pathway duplication -/

/-- C9 counterexample: the output projections are *not* deep copies of each
other — `out_bernoulli` is built afresh (unet.py lines 656-660) with
`out_channels_bernoulli` as the final convolution's output width, so for the
example configuration (`out_channels_gaussian = 2`,
`out_channels_bernoulli = 1`) the two output-projection modules differ in
structure, and applying the two pathways to the same input yields outputs of
different widths. -/
theorem c9_counterexample : out_bernoulli cfgEx ≠ out_gaussian cfgEx := by
  decide

/-- C9 (amended): the Bernoulli pathway's encoder, middle and decoder module
lists are deep copies of the Gaussian pathway's (hence identical structure,
and identical initial weights in the source, diverging only through
training), while the output projections are built separately and agree in
everything except the final convolution's output channel count, which is
`out_channels_bernoulli` instead of `out_channels_gaussian`. -/
theorem c9_pathway_copy (cfg : Config) :
    input_blocks_bernoulli cfg = input_blocks_gaussian cfg ∧
    middle_block_bernoulli cfg = middle_block_gaussian cfg ∧
    output_blocks_bernoulli cfg = output_blocks_gaussian cfg ∧
    out_bernoulli cfg = { out_gaussian cfg with outCh := cfg.out_channels_bernoulli } :=
  ⟨rfl, rfl, rfl, rfl⟩

/-! ## Claim C3 — skip-stack and ledger discipline

During a forward call, every encoder block pushes exactly one feature map
onto the pathway's skip stack (`hs_gaussian.append` runs once per iteration
of the loop over `input_blocks_gaussian`, unet.py lines 701-710) and every
decoder block pops exactly one (`hs_gaussian.pop()` once per iteration over
`output_blocks_gaussian`, lines 715-719); so pushes = `len(input_blocks)`
and pops = `len(output_blocks)`.  At construction time every decoder stage
pops exactly one ledger entry. -/

/-- C3 counterexample: with an empty `channel_mult` the encoder consists of
just the initial convolution (1 push) while the decoder loop body never runs
(0 pops), so the push and pop counts differ and the ledger keeps its initial
entry — the claim fails for `channel_mult` of length 0. -/
theorem c3_counterexample :
    ¬ ((input_blocks_gaussian { cfgEx with channel_mult := [] }).length
        = (output_blocks_gaussian { cfgEx with channel_mult := [] }).length ∧
       decoderLeftoverLedger { cfgEx with channel_mult := [] } = []) := by
  decide

/-- C3 (amended): for every configuration whose `channel_mult` has length at
least 1 — and any `num_res_blocks` — the number of encoder blocks (= skip
pushes per pathway per forward call) equals the number of decoder blocks
(= skip pops per pathway), every ledger entry feeds exactly one decoder
stage (`len(input_block_chans)` = number of decoder stages), and the ledger
is fully drained by the end of decoder construction. -/
theorem c3_push_pop_balance (cfg : Config) (hne : cfg.channel_mult ≠ []) :
    (input_blocks_gaussian cfg).length = (output_blocks_gaussian cfg).length ∧
    (input_block_chans cfg).length = (output_blocks_gaussian cfg).length ∧
    decoderLeftoverLedger cfg = [] := by
  rcases hml : cfg.channel_mult with _ | ⟨m0, rest⟩
  · exact absurd hml hne
  have hEnc := encLevels_length cfg.model_channels cfg.attention_resolutions
    cfg.num_res_blocks cfg.resblock_updown cfg.conv_resample cfg.channel_mult
    cfg.model_channels 1
  have hencLen : (input_blocks_gaussian cfg).length
      = cfg.channel_mult.length * cfg.num_res_blocks + cfg.channel_mult.length := by
    simp only [input_blocks_gaussian, encoderBuild, List.length_cons, hEnc.1]
    rw [hml]
    simp only [List.length_cons]
    omega
  have hchanLen : (input_block_chans cfg).length
      = cfg.channel_mult.length * cfg.num_res_blocks + cfg.channel_mult.length := by
    simp only [input_block_chans, encoderBuild, List.length_cons, hEnc.2]
    rw [hml]
    simp only [List.length_cons]
    omega
  have hDeep := decAllPos_length cfg.model_channels cfg.attention_resolutions
    cfg.num_res_blocks rest (encoderChFinal cfg) (encoderDsFinal cfg)
    (input_block_chans cfg).reverse
  have hLvl0 := decInner_length cfg.model_channels cfg.attention_resolutions m0
    (decAllPos cfg.model_channels cfg.attention_resolutions cfg.num_res_blocks
      rest (encoderChFinal cfg) (encoderDsFinal cfg)
      (input_block_chans cfg).reverse).2.2.1 false (cfg.num_res_blocks + 1)
    (decAllPos cfg.model_channels cfg.attention_resolutions cfg.num_res_blocks
      rest (encoderChFinal cfg) (encoderDsFinal cfg)
      (input_block_chans cfg).reverse).2.1
    (decAllPos cfg.model_channels cfg.attention_resolutions cfg.num_res_blocks
      rest (encoderChFinal cfg) (encoderDsFinal cfg)
      (input_block_chans cfg).reverse).2.2.2
  have hdecoder : (output_blocks_gaussian cfg).length
        = cfg.channel_mult.length * (cfg.num_res_blocks + 1) ∧
      decoderLeftoverLedger cfg
        = (input_block_chans cfg).reverse.drop
            (cfg.channel_mult.length * (cfg.num_res_blocks + 1)) := by
    constructor
    · simp only [output_blocks_gaussian, decoderBuild, hml]
      rw [List.length_append, hLvl0.1, hDeep.1]
      simp only [List.length_cons, Nat.succ_mul]
    · simp only [decoderLeftoverLedger, decoderBuild, hml]
      rw [hLvl0.2, hDeep.2, List.drop_drop]
      congr 1
      simp only [List.length_cons, Nat.succ_mul]
  refine ⟨?_, ?_, ?_⟩
  · rw [hencLen, hdecoder.1]; ring
  · rw [hchanLen, hdecoder.1]; ring
  · rw [hdecoder.2]
    apply List.drop_eq_nil_of_le
    rw [List.length_reverse, hchanLen]
    ring_nf
    omega

/-- Witness for C3 (amended) at the example configuration. -/
theorem c3_witness :
    cfgEx.channel_mult ≠ [] ∧
      ((input_blocks_gaussian cfgEx).length = (output_blocks_gaussian cfgEx).length ∧
       (input_block_chans cfgEx).length = (output_blocks_gaussian cfgEx).length ∧
       decoderLeftoverLedger cfgEx = []) :=
  ⟨by decide, c3_push_pop_balance cfgEx (by decide)⟩

/-! ## Claim C5 — attention placement by resolution counter -/

theorem encInnerLoop_map_dsattn (C : Nat) (A : List Nat) (mult ds : Nat) :
    ∀ n ch, (encInnerLoop C A mult ds n ch).1.map (fun s => (s.ds, s.attn))
      = List.replicate n (ds, decide (ds ∈ A)) := by
  intro n
  induction n with
  | zero => intro ch; simp [encInnerLoop]
  | succ k ih => intro ch; simp [encInnerLoop, ih, List.replicate_succ]

theorem decInner_map_dsattn (C : Nat) (A : List Nat) (mult ds : Nat)
    (lvlPos : Bool) :
    ∀ n ch lg, (decInner C A mult ds lvlPos n ch lg).1.map (fun s => (s.ds, s.attn))
      = List.replicate n (ds, decide (ds ∈ A)) := by
  intro n
  induction n with
  | zero => intro ch lg; simp [decInner]
  | succ k ih => intro ch lg; simp [decInner, ih, List.replicate_succ]

/-- The configuration of claim C5: `channel_mult = (1, 2, 4, 8)` and
`attention_resolutions = {2, 4}`, everything else arbitrary. -/
def cfgC5 (ic C og ob R : Nat) (cr : Bool) (nc : Option Nat) (ru hw : Bool) :
    Config :=
  { in_channels := ic, model_channels := C, out_channels_gaussian := og,
    out_channels_bernoulli := ob, num_res_blocks := R,
    attention_resolutions := [2, 4], channel_mult := [1, 2, 4, 8],
    conv_resample := cr, num_classes := nc, resblock_updown := ru,
    high_way := hw }

/-- C5: with `channel_mult=(1,2,4,8)` and `attention_resolutions={2,4}`, the
`(ds, has-attention)` trace of the encoder is: the initial convolution and
the level-0 residual stages at `ds = 1` without attention, a downsampling
transition, the level-1 residual stages at `ds = 2` *with* attention, a
transition, the level-2 residual stages at `ds = 4` *with* attention, a
transition, and the level-3 residual stages at `ds = 8` without attention —
`ds` doubling after each downsampling transition; the decoder mirrors it in
reverse (`ds` halving after each upsampling level), with attention exactly at
the stages where `ds` is 2 or 4 and at no stage where `ds` is 1 or 8. -/
theorem c5_attention_placement (ic C og ob R : Nat) (cr : Bool)
    (nc : Option Nat) (ru hw : Bool) :
    ((input_blocks_gaussian (cfgC5 ic C og ob R cr nc ru hw)).map
        (fun s => (s.ds, s.attn)))
      = (1, false) :: (List.replicate R (1, false) ++ (1, false) ::
          (List.replicate R (2, true) ++ (2, false) ::
            (List.replicate R (4, true) ++ (4, false) ::
              List.replicate R (8, false)))) ∧
    ((output_blocks_gaussian (cfgC5 ic C og ob R cr nc ru hw)).map
        (fun s => (s.ds, s.attn)))
      = List.replicate (R + 1) (8, false) ++ (List.replicate (R + 1) (4, true)
          ++ (List.replicate (R + 1) (2, true)
            ++ List.replicate (R + 1) (1, false))) := by
  have h1 : decide ((1 : Nat) ∈ ([2, 4] : List Nat)) = false := by decide
  have h2 : decide ((2 : Nat) ∈ ([2, 4] : List Nat)) = true := by decide
  have h4 : decide ((4 : Nat) ∈ ([2, 4] : List Nat)) = true := by decide
  have h8 : decide ((8 : Nat) ∈ ([2, 4] : List Nat)) = false := by decide
  constructor
  · simp only [input_blocks_gaussian, encoderBuild, cfgC5, encLevels,
      List.map_cons, List.map_append, encInnerLoop_map_dsattn, h1, h2, h4, h8]
  · simp only [output_blocks_gaussian, decoderBuild, cfgC5, decAllPos,
      encoderDsFinal, encoderBuild, encLevels, encInnerLoop_chFinal,
      List.map_append, List.map_cons, decInner_map_dsattn, h1, h2, h4, h8]
    norm_num

/-! ## Claim C10 — transition stages preserve the channel count -/

theorem encInnerLoop_no_down (C : Nat) (A : List Nat) (mult ds : Nat) :
    ∀ n ch s, s ∈ (encInnerLoop C A mult ds n ch).1 → s.down = false := by
  intro n
  induction n with
  | zero => intro ch s hs; simp [encInnerLoop] at hs
  | succ k ih =>
      intro ch s hs
      simp only [encInnerLoop, List.mem_cons] at hs
      rcases hs with rfl | hs
      · rfl
      · exact ih (mult * C) s hs

theorem encLevels_down_diag (C : Nat) (A : List Nat) (R : Nat) (ud uc : Bool) :
    ∀ ms ch ds s, s ∈ (encLevels C A R ud uc ms ch ds).1 → s.down = true →
      s.cout = s.cin := by
  intro ms
  induction ms with
  | nil => intro ch ds s hs; simp [encLevels] at hs
  | cons m rest ih =>
      intro ch ds s hs hdown
      cases rest with
      | nil =>
          rw [show (encLevels C A R ud uc [m] ch ds).1
            = (encInnerLoop C A m ds R ch).1 from rfl] at hs
          rw [encInnerLoop_no_down C A m ds R ch s hs] at hdown
          exact absurd hdown (by simp)
      | cons r rs =>
          rw [show (encLevels C A R ud uc (m :: r :: rs) ch ds).1
            = (encInnerLoop C A m ds R ch).1 ++
              { cin := (encInnerLoop C A m ds R ch).2.2,
                cout := (encInnerLoop C A m ds R ch).2.2, attn := false,
                down := true, downConv := !ud && uc, ds := ds } ::
              (encLevels C A R ud uc (r :: rs) (encInnerLoop C A m ds R ch).2.2
                (ds * 2)).1 from rfl] at hs
          rcases List.mem_append.1 hs with hin | hout
          · rw [encInnerLoop_no_down C A m ds R ch s hin] at hdown
            exact absurd hdown (by simp)
          · rcases List.mem_cons.1 hout with rfl | hdeep
            · rfl
            · exact ih (encInnerLoop C A m ds R ch).2.2 (ds * 2) s hdeep hdown

theorem decInner_up_diag (C : Nat) (A : List Nat) (mult ds : Nat)
    (lvlPos : Bool) :
    ∀ n ch lg s p, s ∈ (decInner C A mult ds lvlPos n ch lg).1 →
      s.up = some p → p.2 = p.1 := by
  intro n
  induction n with
  | zero => intro ch lg s p hs; simp [decInner] at hs
  | succ k ih =>
      intro ch lg s p hs hup
      simp only [decInner, List.mem_cons] at hs
      rcases hs with rfl | hs
      · simp only at hup
        by_cases hc : (lvlPos && k == 0) = true
        · rw [if_pos hc] at hup
          cases hup
          rfl
        · rw [if_neg hc] at hup
          cases hup
      · exact ih (mult * C) lg.tail s p hs hup

theorem decAllPos_up_diag (C : Nat) (A : List Nat) (R : Nat) :
    ∀ ms ch ds lg s p, s ∈ (decAllPos C A R ms ch ds lg).1 →
      s.up = some p → p.2 = p.1 := by
  intro ms
  induction ms with
  | nil => intro ch ds lg s p hs; simp [decAllPos] at hs
  | cons m rest ih =>
      intro ch ds lg s p hs hup
      rw [show (decAllPos C A R (m :: rest) ch ds lg).1
        = (decAllPos C A R rest ch ds lg).1 ++
          (decInner C A m (decAllPos C A R rest ch ds lg).2.2.1 true (R + 1)
            (decAllPos C A R rest ch ds lg).2.1
            (decAllPos C A R rest ch ds lg).2.2.2).1 from rfl] at hs
      rcases List.mem_append.1 hs with hdeep | hlvl
      · exact ih ch ds lg s p hdeep hup
      · exact decInner_up_diag C A m (decAllPos C A R rest ch ds lg).2.2.1 true
          (R + 1) (decAllPos C A R rest ch ds lg).2.1
          (decAllPos C A R rest ch ds lg).2.2.2 s p hlvl hup

/-- C10: for every configuration, every pure downsampling transition of the
encoder has equal input and output channel counts (the source sets
`out_ch = ch`, unet.py lines 541-560), and every upsampling sub-block of the
decoder has equal input and output channel counts (`out_ch = ch`, lines
623-638) — regardless of `resblock_updown`; channel counts change only inside
residual stages. -/
theorem c10_transition_channel_preserving (cfg : Config) :
    (∀ s ∈ input_blocks_gaussian cfg, s.down = true → s.cout = s.cin) ∧
    (∀ s ∈ output_blocks_gaussian cfg, ∀ p, s.up = some p → p.2 = p.1) := by
  constructor
  · intro s hs hdown
    simp only [input_blocks_gaussian, encoderBuild, List.mem_cons] at hs
    rcases hs with rfl | hs
    · simp at hdown
    · exact encLevels_down_diag cfg.model_channels cfg.attention_resolutions
        cfg.num_res_blocks cfg.resblock_updown cfg.conv_resample
        cfg.channel_mult cfg.model_channels 1 s hs hdown
  · intro s hs p hup
    rcases hml : cfg.channel_mult with _ | ⟨m0, rest⟩
    · simp only [output_blocks_gaussian, decoderBuild, hml] at hs
      simp at hs
    · simp only [output_blocks_gaussian, decoderBuild, hml] at hs
      rcases List.mem_append.1 hs with hdeep | hlvl
      · exact decAllPos_up_diag cfg.model_channels cfg.attention_resolutions
          cfg.num_res_blocks rest _ _ _ s p hdeep hup
      · exact decInner_up_diag cfg.model_channels cfg.attention_resolutions m0
          _ false _ _ _ s p hlvl hup

/-- Witness for C10 at the example configuration: a concrete downsampling
transition stage of the encoder and a concrete decoder stage carrying an
upsampling sub-block, both channel-preserving. -/
theorem c10_witness :
    ((⟨32, 32, false, true, true, 1⟩ : EncStage) ∈ input_blocks_gaussian cfgEx ∧
      (⟨32, 32, false, true, true, 1⟩ : EncStage).cout
        = (⟨32, 32, false, true, true, 1⟩ : EncStage).cin) ∧
    ((⟨192, 128, false, some (128, 128), 4⟩ : DecStage) ∈
        output_blocks_gaussian cfgEx ∧
      ((128 : Nat), (128 : Nat)).2 = ((128 : Nat), (128 : Nat)).1) :=
  ⟨⟨by decide, (c10_transition_channel_preserving cfgEx).1
      (⟨32, 32, false, true, true, 1⟩ : EncStage) (by decide) rfl⟩,
   ⟨by decide, (c10_transition_channel_preserving cfgEx).2
      (⟨192, 128, false, some (128, 128), 4⟩ : DecStage) (by decide)
      (128, 128) rfl⟩⟩

/-! ## Claim C1 — forward-pass shape correctness

The proof pairs the encoder and decoder level by level: an induction over the
tail of `channel_mult` shows that the features and skip tensors produced by
the encoder levels are consumed exactly, in reverse, by the matching decoder
levels, restoring the channel count `mult * model_channels` of each level and
doubling the spatial size back on the way up. -/

theorem downsampleDim_even (u : Bool) (h : Nat) (hdvd : 2 ∣ h) (hpos : 0 < h) :
    downsampleDim u h = h / 2 := by
  obtain ⟨t, rfl⟩ := hdvd
  unfold downsampleDim
  split <;> omega

theorem runEnc_append (a : List EncStage) :
    ∀ (b : List EncStage) (sh : Shape),
      runEnc (a ++ b) sh = (do
        let (ps, f) ← runEnc a sh
        let (qs, g) ← runEnc b f
        pure (ps ++ qs, g) : Option (List Shape × Shape)) := by
  induction a with
  | nil => intro b sh; simp [runEnc]
  | cons s rest ih =>
      intro b sh
      simp only [List.cons_append, runEnc]
      cases h : s.apply sh with
      | none => simp [h]
      | some sh1 =>
          simp only [h, Option.bind_eq_bind, Option.some_bind, List.append_eq]
          rw [ih b sh1]
          cases hr : runEnc rest sh1 with
          | none => simp
          | some p =>
              cases hb : runEnc b p.2 with
              | none => simp [hb]
              | some q => simp [hb]

theorem runDec_append (a : List DecStage) :
    ∀ (b : List DecStage) (skips : List Shape) (sh : Shape),
      runDec (a ++ b) skips sh = (do
        let (sh1, skips1) ← runDec a skips sh
        runDec b skips1 sh1 : Option (Shape × List Shape)) := by
  induction a with
  | nil => intro b skips sh; simp [runDec]
  | cons s rest ih =>
      intro b skips sh
      cases skips with
      | nil => simp [runDec]
      | cons sk skips' =>
          cases h : s.apply sk sh with
          | none => simp [runDec, h]
          | some sh1 => simp [runDec, h, ih]

theorem encInnerLoop_run (C : Nat) (A : List Nat) (mult ds : Nat) :
    ∀ (n : Nat) (ch N h w : Nat),
      runEnc (encInnerLoop C A mult ds n ch).1 ⟨N, ch, h, w⟩
        = some (List.replicate n ⟨N, mult * C, h, w⟩,
            ⟨N, (encInnerLoop C A mult ds n ch).2.2, h, w⟩) := by
  intro n
  induction n with
  | zero => intro ch N h w; simp [encInnerLoop, runEnc]
  | succ k ih =>
      intro ch N h w
      simp [encInnerLoop, runEnc, EncStage.apply, ih (mult * C) N h w,
        List.replicate_succ]

theorem runDec_cons (s : DecStage) (rest : List DecStage) (sk : Shape)
    (skips : List Shape) (sh : Shape) :
    runDec (s :: rest) (sk :: skips) sh
      = (s.apply sk sh).bind fun sh1 => runDec rest skips sh1 := rfl

theorem runEnc_cons (s : EncStage) (rest : List EncStage) (sh : Shape) :
    runEnc (s :: rest) sh
      = (s.apply sh).bind fun sh1 =>
          (runEnc rest sh1).bind fun p => some (sh1 :: p.1, p.2) := rfl

theorem decInner_run (C : Nat) (A : List Nat) (mult ds : Nat) (lvlPos : Bool) :
    ∀ (Rn : Nat) (chIn e N hcur wcur : Nat) (lgTail : List Nat)
      (skTail : List Shape),
      (decInner C A mult ds lvlPos (Rn + 1) chIn
          (List.replicate Rn (mult * C) ++ e :: lgTail)).2.1 = mult * C ∧
      (decInner C A mult ds lvlPos (Rn + 1) chIn
          (List.replicate Rn (mult * C) ++ e :: lgTail)).2.2 = lgTail ∧
      runDec (decInner C A mult ds lvlPos (Rn + 1) chIn
            (List.replicate Rn (mult * C) ++ e :: lgTail)).1
          (List.replicate Rn (⟨N, mult * C, hcur, wcur⟩ : Shape)
            ++ ⟨N, e, hcur, wcur⟩ :: skTail)
          ⟨N, chIn, hcur, wcur⟩
        = some (⟨N, mult * C, if lvlPos then hcur * 2 else hcur,
              if lvlPos then wcur * 2 else wcur⟩, skTail) := by
  intro Rn
  induction Rn with
  | zero =>
      intro chIn e N hcur wcur lgTail skTail
      cases lvlPos <;>
        simp [decInner, runDec, DecStage.apply]
  | succ k ih =>
      intro chIn e N hcur wcur lgTail skTail
      obtain ⟨ih1, ih2, ih3⟩ := ih (mult * C) e N hcur wcur lgTail skTail
      refine ⟨?_, ?_, ?_⟩
      · simpa [decInner, List.replicate_succ] using ih1
      · simpa [decInner, List.replicate_succ] using ih2
      · have hled : (List.replicate (k + 1) (mult * C) ++ e :: lgTail)
            = (mult * C) :: (List.replicate k (mult * C) ++ e :: lgTail) := by
          simp [List.replicate_succ]
        have hsk : (List.replicate (k + 1) (⟨N, mult * C, hcur, wcur⟩ : Shape)
              ++ ⟨N, e, hcur, wcur⟩ :: skTail)
            = (⟨N, mult * C, hcur, wcur⟩ : Shape)
              :: (List.replicate k (⟨N, mult * C, hcur, wcur⟩ : Shape)
                ++ ⟨N, e, hcur, wcur⟩ :: skTail) := by
          simp [List.replicate_succ]
        rw [hled, hsk]
        have hstep : decInner C A mult ds lvlPos (k + 1 + 1) chIn
              ((mult * C) :: (List.replicate k (mult * C) ++ e :: lgTail))
            = ({ cin := chIn + mult * C, cout := mult * C,
                  attn := decide (ds ∈ A), up := none, ds := ds } ::
                (decInner C A mult ds lvlPos (k + 1) (mult * C)
                  (List.replicate k (mult * C) ++ e :: lgTail)).1,
               (decInner C A mult ds lvlPos (k + 1) (mult * C)
                  (List.replicate k (mult * C) ++ e :: lgTail)).2.1,
               (decInner C A mult ds lvlPos (k + 1) (mult * C)
                  (List.replicate k (mult * C) ++ e :: lgTail)).2.2) := by
          conv_lhs => rw [decInner]
          simp
        rw [hstep, runDec_cons]
        have happ : DecStage.apply
              { cin := chIn + mult * C, cout := mult * C,
                attn := decide (ds ∈ A), up := none, ds := ds }
              (⟨N, mult * C, hcur, wcur⟩ : Shape) (⟨N, chIn, hcur, wcur⟩ : Shape)
            = some ⟨N, mult * C, hcur, wcur⟩ := by
          simp [DecStage.apply]
        rw [happ, Option.some_bind]
        exact ih3

theorem pow_succ_dvd_half {k h : Nat} (hdvd : 2 ^ (k + 1) ∣ h) :
    2 ^ k ∣ h / 2 := by
  obtain ⟨t, rfl⟩ := hdvd
  refine ⟨t, ?_⟩
  rw [pow_succ, show 2 ^ k * 2 * t = 2 * (2 ^ k * t) by ring,
    Nat.mul_div_cancel_left _ two_pos]

theorem two_dvd_of_pow_succ_dvd {k h : Nat} (hdvd : 2 ^ (k + 1) ∣ h) :
    2 ∣ h := by
  exact dvd_trans (dvd_pow_self 2 (Nat.succ_ne_zero k)) hdvd

/-- Structural unfolding of `encLevels` at a level that is not the last. -/
theorem encLevels_cons₂ (C : Nat) (A : List Nat) (R : Nat) (ud uc : Bool)
    (m r : Nat) (rs : List Nat) (ch ds : Nat) :
    encLevels C A R ud uc (m :: r :: rs) ch ds
      = ((encInnerLoop C A m ds R ch).1
          ++ ({ cin := (encInnerLoop C A m ds R ch).2.2,
                cout := (encInnerLoop C A m ds R ch).2.2, attn := false,
                down := true, downConv := !ud && uc, ds := ds } : EncStage)
            :: (encLevels C A R ud uc (r :: rs)
                (encInnerLoop C A m ds R ch).2.2 (ds * 2)).1,
         (encInnerLoop C A m ds R ch).2.1
          ++ (encInnerLoop C A m ds R ch).2.2
            :: (encLevels C A R ud uc (r :: rs)
                (encInnerLoop C A m ds R ch).2.2 (ds * 2)).2.1,
         (encLevels C A R ud uc (r :: rs)
            (encInnerLoop C A m ds R ch).2.2 (ds * 2)).2.2.1,
         (encLevels C A R ud uc (r :: rs)
            (encInnerLoop C A m ds R ch).2.2 (ds * 2)).2.2.2) := rfl

/-- Structural unfolding of `decAllPos` at a (reversed-order) level list. -/
theorem decAllPos_cons (C : Nat) (A : List Nat) (R : Nat) (mult : Nat)
    (rest : List Nat) (ch ds : Nat) (lg : List Nat) :
    decAllPos C A R (mult :: rest) ch ds lg
      = ((decAllPos C A R rest ch ds lg).1
          ++ (decInner C A mult (decAllPos C A R rest ch ds lg).2.2.1 true
              (R + 1) (decAllPos C A R rest ch ds lg).2.1
              (decAllPos C A R rest ch ds lg).2.2.2).1,
         (decInner C A mult (decAllPos C A R rest ch ds lg).2.2.1 true (R + 1)
            (decAllPos C A R rest ch ds lg).2.1
            (decAllPos C A R rest ch ds lg).2.2.2).2.1,
         (decAllPos C A R rest ch ds lg).2.2.1 / 2,
         (decInner C A mult (decAllPos C A R rest ch ds lg).2.2.1 true (R + 1)
            (decAllPos C A R rest ch ds lg).2.1
            (decAllPos C A R rest ch ds lg).2.2.2).2.2) := rfl

/-- The level-pairing invariant: running the encoder stages of the levels
`m :: ms` (with every decoder counterpart carrying the `level != 0` flag)
from channel count `ch` at spatial size `(h, w)` succeeds, ends at the
spatial size divided by `2 ^ ms.length`, and the matching decoder levels
consume the reversed ledger and reversed skip stack exactly — finishing at
channel count `m * model_channels` and twice the entry spatial size (the
final doubling undoes the caller's downsampling transition). -/
theorem enc_dec_level (C : Nat) (A : List Nat) (R : Nat) (ud uc : Bool) :
    ∀ (ms : List Nat) (m ch ds N h w : Nat) (lgTail : List Nat)
      (skTail : List Shape),
      0 < h → 0 < w → 2 ^ ms.length ∣ h → 2 ^ ms.length ∣ w →
      ∃ pushed : List Shape,
        runEnc (encLevels C A R ud uc (m :: ms) ch ds).1 ⟨N, ch, h, w⟩
          = some (pushed,
              ⟨N, (encLevels C A R ud uc (m :: ms) ch ds).2.2.1,
                h / 2 ^ ms.length, w / 2 ^ ms.length⟩) ∧
        (decAllPos C A R (m :: ms)
            (encLevels C A R ud uc (m :: ms) ch ds).2.2.1
            (encLevels C A R ud uc (m :: ms) ch ds).2.2.2
            ((encLevels C A R ud uc (m :: ms) ch ds).2.1.reverse
              ++ ch :: lgTail)).2.1 = m * C ∧
        (decAllPos C A R (m :: ms)
            (encLevels C A R ud uc (m :: ms) ch ds).2.2.1
            (encLevels C A R ud uc (m :: ms) ch ds).2.2.2
            ((encLevels C A R ud uc (m :: ms) ch ds).2.1.reverse
              ++ ch :: lgTail)).2.2.2 = lgTail ∧
        runDec (decAllPos C A R (m :: ms)
            (encLevels C A R ud uc (m :: ms) ch ds).2.2.1
            (encLevels C A R ud uc (m :: ms) ch ds).2.2.2
            ((encLevels C A R ud uc (m :: ms) ch ds).2.1.reverse
              ++ ch :: lgTail)).1
          (pushed.reverse ++ ⟨N, ch, h, w⟩ :: skTail)
          ⟨N, (encLevels C A R ud uc (m :: ms) ch ds).2.2.1,
            h / 2 ^ ms.length, w / 2 ^ ms.length⟩
          = some (⟨N, m * C, h * 2, w * 2⟩, skTail) := by
  intro ms
  induction ms with
  | nil =>
      intro m ch ds N h w lgTail skTail hh hw hdh hdw
      obtain ⟨d1, d2, d3⟩ := decInner_run C A m ds true R
        (encInnerLoop C A m ds R ch).2.2 ch N h w lgTail skTail
      have hlg : (encLevels C A R ud uc [m] ch ds).2.1.reverse ++ ch :: lgTail
          = List.replicate R (m * C) ++ ch :: lgTail := by
        show (encInnerLoop C A m ds R ch).2.1.reverse ++ ch :: lgTail = _
        rw [encInnerLoop_chans, List.reverse_replicate]
      refine ⟨List.replicate R ⟨N, m * C, h, w⟩, ?_, ?_, ?_, ?_⟩
      · show runEnc (encInnerLoop C A m ds R ch).1 _ = _
        simpa using encInnerLoop_run C A m ds R ch N h w
      · rw [hlg]
        show (decInner C A m ds true (R + 1) (encInnerLoop C A m ds R ch).2.2
          (List.replicate R (m * C) ++ ch :: lgTail)).2.1 = m * C
        exact d1
      · rw [hlg]
        show (decInner C A m ds true (R + 1) (encInnerLoop C A m ds R ch).2.2
          (List.replicate R (m * C) ++ ch :: lgTail)).2.2 = lgTail
        exact d2
      · rw [hlg]
        show runDec ([] ++ (decInner C A m ds true (R + 1)
            (encInnerLoop C A m ds R ch).2.2
            (List.replicate R (m * C) ++ ch :: lgTail)).1)
          ((List.replicate R (⟨N, m * C, h, w⟩ : Shape)).reverse
            ++ ⟨N, ch, h, w⟩ :: skTail)
          ⟨N, (encInnerLoop C A m ds R ch).2.2, h / 2 ^ 0, w / 2 ^ 0⟩ = _
        rw [List.nil_append, List.reverse_replicate, pow_zero, Nat.div_one,
          Nat.div_one]
        simpa using d3
  | cons m' ms' ih =>
      intro m ch ds N h w lgTail skTail hh hw hdh hdw
      have h2h : 2 ∣ h := two_dvd_of_pow_succ_dvd (by simpa using hdh)
      have h2w : 2 ∣ w := two_dvd_of_pow_succ_dvd (by simpa using hdw)
      have hph : 0 < h / 2 := Nat.div_pos (Nat.le_of_dvd hh h2h) two_pos
      have hpw : 0 < w / 2 := Nat.div_pos (Nat.le_of_dvd hw h2w) two_pos
      have hdh' : 2 ^ ms'.length ∣ h / 2 := pow_succ_dvd_half (by simpa using hdh)
      have hdw' : 2 ^ ms'.length ∣ w / 2 := pow_succ_dvd_half (by simpa using hdw)
      obtain ⟨pushedD, e1, e2, e3, e4⟩ := ih m' (encInnerLoop C A m ds R ch).2.2
        (ds * 2) N (h / 2) (w / 2)
        (List.replicate R (m * C) ++ ch :: lgTail)
        (List.replicate R ⟨N, m * C, h, w⟩ ++ ⟨N, ch, h, w⟩ :: skTail)
        hph hpw hdh' hdw'
      obtain ⟨d1, d2, d3⟩ := decInner_run C A m
        (decAllPos C A R (m' :: ms')
          (encLevels C A R ud uc (m' :: ms')
            (encInnerLoop C A m ds R ch).2.2 (ds * 2)).2.2.1
          (encLevels C A R ud uc (m' :: ms')
            (encInnerLoop C A m ds R ch).2.2 (ds * 2)).2.2.2
          ((encLevels C A R ud uc (m' :: ms')
              (encInnerLoop C A m ds R ch).2.2 (ds * 2)).2.1.reverse
            ++ (encInnerLoop C A m ds R ch).2.2
              :: (List.replicate R (m * C) ++ ch :: lgTail))).2.2.1
        true R (m' * C) ch N h w lgTail skTail
      have hlg : (encLevels C A R ud uc (m :: m' :: ms') ch ds).2.1.reverse
            ++ ch :: lgTail
          = (encLevels C A R ud uc (m' :: ms')
              (encInnerLoop C A m ds R ch).2.2 (ds * 2)).2.1.reverse
            ++ (encInnerLoop C A m ds R ch).2.2
              :: (List.replicate R (m * C) ++ ch :: lgTail) := by
        show ((encInnerLoop C A m ds R ch).2.1
            ++ (encInnerLoop C A m ds R ch).2.2
              :: (encLevels C A R ud uc (m' :: ms')
                (encInnerLoop C A m ds R ch).2.2 (ds * 2)).2.1).reverse
            ++ ch :: lgTail = _
        rw [encInnerLoop_chans, List.reverse_append, List.reverse_cons,
          List.reverse_replicate]
        simp [List.append_assoc]
      have hX : (encLevels C A R ud uc (m :: m' :: ms') ch ds).2.2.1
          = (encLevels C A R ud uc (m' :: ms')
              (encInnerLoop C A m ds R ch).2.2 (ds * 2)).2.2.1 := rfl
      have hY : (encLevels C A R ud uc (m :: m' :: ms') ch ds).2.2.2
          = (encLevels C A R ud uc (m' :: ms')
              (encInnerLoop C A m ds R ch).2.2 (ds * 2)).2.2.2 := rfl
      have hdivh : h / 2 / 2 ^ ms'.length = h / 2 ^ (ms'.length + 1) := by
        rw [Nat.div_div_eq_div_mul, ← pow_succ']
      have hdivw : w / 2 / 2 ^ ms'.length = w / 2 ^ (ms'.length + 1) := by
        rw [Nat.div_div_eq_div_mul, ← pow_succ']
      rw [hdivh, hdivw] at e1 e4
      rw [Nat.div_mul_cancel h2h, Nat.div_mul_cancel h2w] at e4
      have happly : EncStage.apply
          ({ cin := (encInnerLoop C A m ds R ch).2.2,
             cout := (encInnerLoop C A m ds R ch).2.2, attn := false,
             down := true, downConv := !ud && uc, ds := ds } : EncStage)
          ⟨N, (encInnerLoop C A m ds R ch).2.2, h, w⟩
          = some ⟨N, (encInnerLoop C A m ds R ch).2.2, h / 2, w / 2⟩ := by
        simp [EncStage.apply, downsampleDim_even _ h h2h hh,
          downsampleDim_even _ w h2w hw]
      refine ⟨List.replicate R ⟨N, m * C, h, w⟩
        ++ ⟨N, (encInnerLoop C A m ds R ch).2.2, h / 2, w / 2⟩ :: pushedD,
        ?_, ?_, ?_, ?_⟩
      · simp only [encLevels_cons₂, List.length_cons]
        rw [runEnc_append, encInnerLoop_run C A m ds R ch N h w]
        simp only [Option.bind_eq_bind, Option.some_bind, runEnc, happly, e1]
        rfl
      · rw [hlg, hX, hY, decAllPos_cons]
        dsimp only
        rw [e2, e3]
        exact d1
      · rw [hlg, hX, hY, decAllPos_cons]
        dsimp only
        rw [e2, e3]
        exact d2
      · rw [hlg, hX, hY, decAllPos_cons]
        dsimp only
        simp only [List.length_cons]
        rw [show (List.replicate R (⟨N, m * C, h, w⟩ : Shape)
              ++ ⟨N, (encInnerLoop C A m ds R ch).2.2, h / 2, w / 2⟩
                :: pushedD).reverse ++ ⟨N, ch, h, w⟩ :: skTail
            = pushedD.reverse
              ++ ⟨N, (encInnerLoop C A m ds R ch).2.2, h / 2, w / 2⟩
                :: (List.replicate R ⟨N, m * C, h, w⟩
                  ++ ⟨N, ch, h, w⟩ :: skTail) from by
          simp [List.reverse_append, List.reverse_replicate, List.append_assoc]]
        rw [runDec_append, e4]
        simp only [Option.bind_eq_bind, Option.some_bind]
        rw [e2, e3]
        simpa using d3

/-- Structural unfolding of `encLevels` at the last level. -/
theorem encLevels_single (C : Nat) (A : List Nat) (R : Nat) (ud uc : Bool)
    (m ch ds : Nat) :
    encLevels C A R ud uc [m] ch ds
      = ((encInnerLoop C A m ds R ch).1, (encInnerLoop C A m ds R ch).2.1,
         (encInnerLoop C A m ds R ch).2.2, ds) := rfl

/-- Structural unfolding of `decAllPos` at the empty level list. -/
theorem decAllPos_nil (C : Nat) (A : List Nat) (R : Nat) (ch ds : Nat)
    (lg : List Nat) :
    decAllPos C A R [] ch ds lg = ([], ch, ds, lg) := rfl

/-- One pathway of a forward call succeeds with the projection's output
width and the input spatial size, for every configuration with
`in_channels = 2`, a non-empty `channel_mult` starting at 1, and spatial
sizes divisible by `2 ^ (len(channel_mult) - 1)`.  The anchor bias is the
stage-0 shape `(N, model_channels, h, w)` (the MFCM contract). -/
theorem pathwayRun_ok (cfg : Config) (proj : OutProj) (N h w : Nat)
    (hne : cfg.channel_mult ≠ []) (hhead : cfg.channel_mult.headD 0 = 1)
    (hh : 0 < h) (hw : 0 < w)
    (hdh : 2 ^ (cfg.channel_mult.length - 1) ∣ h)
    (hdw : 2 ^ (cfg.channel_mult.length - 1) ∣ w)
    (hin : cfg.in_channels = 2)
    (hproj : proj.normCh = decoderChFinal cfg)
    (hconv : proj.convIn = cfg.model_channels) :
    pathwayRun (input_blocks_gaussian cfg) (middle_block_gaussian cfg)
      (output_blocks_gaussian cfg) proj
      ⟨N, cfg.model_channels, h, w⟩ ⟨N, 2, h, w⟩
      = some ⟨N, proj.outCh, h, w⟩ := by
  rcases hml : cfg.channel_mult with _ | ⟨m0, rest⟩
  · exact absurd hml hne
  have hm0 : m0 = 1 := by rw [hml] at hhead; simpa using hhead
  subst hm0
  rw [hml] at hdh hdw
  have happ0 : EncStage.apply
      ({ cin := cfg.in_channels, cout := cfg.model_channels, attn := false,
         down := false, downConv := false, ds := 1 } : EncStage)
      ⟨N, 2, h, w⟩ = some ⟨N, cfg.model_channels, h, w⟩ := by
    simp [EncStage.apply, hin]
  have hbias : addBias ⟨N, cfg.model_channels, h, w⟩ ⟨N, cfg.model_channels, h, w⟩
      = some ⟨N, cfg.model_channels, h, w⟩ := by
    simp [addBias]
  cases rest with
  | nil =>
      obtain ⟨d1, d2, d3⟩ := decInner_run cfg.model_channels
        cfg.attention_resolutions 1 1 false cfg.num_res_blocks
        (encInnerLoop cfg.model_channels cfg.attention_resolutions 1 1
          cfg.num_res_blocks cfg.model_channels).2.2
        cfg.model_channels N h w ([] : List Nat) ([] : List Shape)
      have hnorm : decoderChFinal cfg = 1 * cfg.model_channels := by
        simp only [decoderChFinal, decoderBuild, hml, input_block_chans,
          encoderBuild, encoderChFinal, encoderDsFinal, encLevels_single,
          decAllPos_nil, encInnerLoop_chans, List.reverse_cons,
          List.reverse_replicate]
        simpa using d1
      simp only [pathwayRun, input_blocks_gaussian, middle_block_gaussian,
        encoderChFinal, output_blocks_gaussian, input_block_chans,
        encoderDsFinal, encoderBuild, decoderBuild, hml, encLevels_single,
        decAllPos_nil, encInnerLoop_chans, List.reverse_cons,
        List.reverse_replicate]
      rw [runEncWithAnchor, happ0]
      simp only [Option.bind_eq_bind, Option.some_bind, hbias]
      rw [encInnerLoop_run cfg.model_channels cfg.attention_resolutions 1 1
        cfg.num_res_blocks cfg.model_channels N h w]
      simp only [Option.some_bind, middleApply, if_pos rfl, List.nil_append,
        List.reverse_cons, List.reverse_replicate]
      simp only [Option.pure_def, Option.some_bind]
      simp only [if_true, Option.some_bind, List.reverse_cons,
        List.reverse_replicate]
      rw [d3]
      simp only [Option.some_bind]
      simp [outProjApply, hproj, hnorm, hconv, one_mul]
  | cons r rs =>
      have hlh : (2 : Nat) ^ ((1 :: r :: rs).length - 1) = 2 ^ (rs.length + 1) := rfl
      rw [hlh] at hdh hdw
      have h2h : 2 ∣ h := two_dvd_of_pow_succ_dvd hdh
      have h2w : 2 ∣ w := two_dvd_of_pow_succ_dvd hdw
      have hph : 0 < h / 2 := Nat.div_pos (Nat.le_of_dvd hh h2h) two_pos
      have hpw : 0 < w / 2 := Nat.div_pos (Nat.le_of_dvd hw h2w) two_pos
      have hdh' : 2 ^ rs.length ∣ h / 2 := pow_succ_dvd_half hdh
      have hdw' : 2 ^ rs.length ∣ w / 2 := pow_succ_dvd_half hdw
      have hdivh : h / 2 / 2 ^ rs.length = h / 2 ^ (rs.length + 1) := by
        rw [Nat.div_div_eq_div_mul, ← pow_succ']
      have hdivw : w / 2 / 2 ^ rs.length = w / 2 ^ (rs.length + 1) := by
        rw [Nat.div_div_eq_div_mul, ← pow_succ']
      obtain ⟨pushedD, e1, e2, e3, e4⟩ := enc_dec_level cfg.model_channels
        cfg.attention_resolutions cfg.num_res_blocks cfg.resblock_updown
        cfg.conv_resample rs r
        (encInnerLoop cfg.model_channels cfg.attention_resolutions 1 1
          cfg.num_res_blocks cfg.model_channels).2.2
        (1 * 2) N (h / 2) (w / 2)
        (List.replicate cfg.num_res_blocks (1 * cfg.model_channels)
          ++ cfg.model_channels :: [])
        (List.replicate cfg.num_res_blocks ⟨N, 1 * cfg.model_channels, h, w⟩
          ++ ⟨N, cfg.model_channels, h, w⟩ :: [])
        hph hpw hdh' hdw'
      rw [hdivh, hdivw] at e1 e4
      rw [Nat.div_mul_cancel h2h, Nat.div_mul_cancel h2w] at e4
      obtain ⟨d1, d2, d3⟩ := decInner_run cfg.model_channels
        cfg.attention_resolutions 1
        (decAllPos cfg.model_channels cfg.attention_resolutions
          cfg.num_res_blocks (r :: rs)
          (encLevels cfg.model_channels cfg.attention_resolutions
            cfg.num_res_blocks cfg.resblock_updown cfg.conv_resample (r :: rs)
            (encInnerLoop cfg.model_channels cfg.attention_resolutions 1 1
              cfg.num_res_blocks cfg.model_channels).2.2 (1 * 2)).2.2.1
          (encLevels cfg.model_channels cfg.attention_resolutions
            cfg.num_res_blocks cfg.resblock_updown cfg.conv_resample (r :: rs)
            (encInnerLoop cfg.model_channels cfg.attention_resolutions 1 1
              cfg.num_res_blocks cfg.model_channels).2.2 (1 * 2)).2.2.2
          ((encLevels cfg.model_channels cfg.attention_resolutions
              cfg.num_res_blocks cfg.resblock_updown cfg.conv_resample (r :: rs)
              (encInnerLoop cfg.model_channels cfg.attention_resolutions 1 1
                cfg.num_res_blocks cfg.model_channels).2.2 (1 * 2)).2.1.reverse
            ++ (encInnerLoop cfg.model_channels cfg.attention_resolutions 1 1
                cfg.num_res_blocks cfg.model_channels).2.2
              :: (List.replicate cfg.num_res_blocks (1 * cfg.model_channels)
                ++ cfg.model_channels :: []))).2.2.1
        false cfg.num_res_blocks (r * cfg.model_channels) cfg.model_channels
        N h w ([] : List Nat) ([] : List Shape)
      have happly : EncStage.apply
          ({ cin := (encInnerLoop cfg.model_channels cfg.attention_resolutions
              1 1 cfg.num_res_blocks cfg.model_channels).2.2,
             cout := (encInnerLoop cfg.model_channels cfg.attention_resolutions
              1 1 cfg.num_res_blocks cfg.model_channels).2.2, attn := false,
             down := true,
             downConv := !cfg.resblock_updown && cfg.conv_resample,
             ds := 1 } : EncStage)
          ⟨N, (encInnerLoop cfg.model_channels cfg.attention_resolutions 1 1
            cfg.num_res_blocks cfg.model_channels).2.2, h, w⟩
          = some ⟨N, (encInnerLoop cfg.model_channels cfg.attention_resolutions
              1 1 cfg.num_res_blocks cfg.model_channels).2.2, h / 2, w / 2⟩ := by
        simp [EncStage.apply, downsampleDim_even _ h h2h hh,
          downsampleDim_even _ w h2w hw]
      have hlgrev : ((cfg.model_channels
            :: ((encInnerLoop cfg.model_channels cfg.attention_resolutions 1 1
                cfg.num_res_blocks cfg.model_channels).2.1
              ++ (encInnerLoop cfg.model_channels cfg.attention_resolutions 1 1
                  cfg.num_res_blocks cfg.model_channels).2.2
                :: (encLevels cfg.model_channels cfg.attention_resolutions
                  cfg.num_res_blocks cfg.resblock_updown cfg.conv_resample
                  (r :: rs)
                  (encInnerLoop cfg.model_channels cfg.attention_resolutions 1 1
                    cfg.num_res_blocks cfg.model_channels).2.2
                  (1 * 2)).2.1)).reverse)
          = (encLevels cfg.model_channels cfg.attention_resolutions
              cfg.num_res_blocks cfg.resblock_updown cfg.conv_resample (r :: rs)
              (encInnerLoop cfg.model_channels cfg.attention_resolutions 1 1
                cfg.num_res_blocks cfg.model_channels).2.2 (1 * 2)).2.1.reverse
            ++ (encInnerLoop cfg.model_channels cfg.attention_resolutions 1 1
                cfg.num_res_blocks cfg.model_channels).2.2
              :: (List.replicate cfg.num_res_blocks (1 * cfg.model_channels)
                ++ cfg.model_channels :: []) := by
        rw [encInnerLoop_chans]
        simp [List.reverse_cons, List.reverse_append, List.reverse_replicate,
          List.append_assoc]
      have hnorm : decoderChFinal cfg = 1 * cfg.model_channels := by
        simp only [decoderChFinal, decoderBuild, hml, input_block_chans,
          encoderBuild, encoderChFinal, encoderDsFinal]
        rw [encLevels_cons₂ cfg.model_channels cfg.attention_resolutions
          cfg.num_res_blocks cfg.resblock_updown cfg.conv_resample 1 r rs
          cfg.model_channels 1]
        dsimp only
        rw [hlgrev, e2, e3]
        exact d1
      simp only [pathwayRun, input_blocks_gaussian, middle_block_gaussian,
        encoderChFinal, output_blocks_gaussian, input_block_chans,
        encoderDsFinal, encoderBuild, decoderBuild, hml]
      rw [encLevels_cons₂ cfg.model_channels cfg.attention_resolutions
        cfg.num_res_blocks cfg.resblock_updown cfg.conv_resample 1 r rs
        cfg.model_channels 1]
      dsimp only
      rw [hlgrev, e2, e3]
      rw [runEncWithAnchor, happ0]
      simp only [Option.bind_eq_bind, Option.some_bind, hbias]
      rw [runEnc_append,
        encInnerLoop_run cfg.model_channels cfg.attention_resolutions 1 1
          cfg.num_res_blocks cfg.model_channels N h w]
      simp only [Option.pure_def, Option.bind_eq_bind, Option.some_bind]
      rw [runEnc_cons, happly]
      simp only [Option.some_bind]
      rw [e1]
      simp only [Option.some_bind, middleApply, if_true]
      rw [show ((⟨N, cfg.model_channels, h, w⟩ : Shape)
            :: (List.replicate cfg.num_res_blocks
                (⟨N, 1 * cfg.model_channels, h, w⟩ : Shape)
              ++ ⟨N, (encInnerLoop cfg.model_channels cfg.attention_resolutions
                  1 1 cfg.num_res_blocks cfg.model_channels).2.2, h / 2, w / 2⟩
                :: pushedD)).reverse
          = pushedD.reverse
            ++ ⟨N, (encInnerLoop cfg.model_channels cfg.attention_resolutions
                1 1 cfg.num_res_blocks cfg.model_channels).2.2, h / 2, w / 2⟩
              :: (List.replicate cfg.num_res_blocks
                  (⟨N, 1 * cfg.model_channels, h, w⟩ : Shape)
                ++ ⟨N, cfg.model_channels, h, w⟩ :: []) from by
        simp [List.reverse_cons, List.reverse_append, List.reverse_replicate,
          List.append_assoc]]
      rw [runDec_append, e4]
      simp only [Option.pure_def, Option.bind_eq_bind, Option.some_bind]
      rw [d3]
      simp only [Option.some_bind]
      simp [outProjApply, hproj, hnorm, hconv, one_mul]

/-- C1: for every valid configuration, batch size `N ≥ 1` and spatial size
divisible by `2 ^ (len(channel_mult) - 1)` (and positive), with anchor
widths satisfying the MFCM contract `2·cl + chg = model_channels`, a forward
call returns a Gaussian-pathway tensor of width `out_channels_gaussian`, a
Bernoulli-pathway tensor of width `out_channels_bernoulli`, both with the
input's spatial size, plus the calibration map — without raising. -/
theorem c1_forward_output_shapes (cfg : Config) (cl chg : Nat) (cal : Shape)
    (N h w : Nat) (hvalid : ValidConfig cfg) (hN : 1 ≤ N) (hh : 0 < h)
    (hw : 0 < w)
    (hdh : 2 ^ (cfg.channel_mult.length - 1) ∣ h)
    (hdw : 2 ^ (cfg.channel_mult.length - 1) ∣ w)
    (hanch : 2 * cl + chg = cfg.model_channels) :
    forwardShapes cfg cl chg cal ⟨N, 3, h, w⟩ none
      = .ok (⟨N, cfg.out_channels_gaussian, h, w⟩,
             ⟨N, cfg.out_channels_bernoulli, h, w⟩, cal) := by
  obtain ⟨hin, hnc, hhw, hne, hhead⟩ := hvalid
  have hg := pathwayRun_ok cfg (out_gaussian cfg) N h w hne hhead hh hw hdh hdw
    hin rfl rfl
  have hb := pathwayRun_ok cfg (out_bernoulli cfg) N h w hne hhead hh hw hdh hdw
    hin rfl rfl
  have hib : input_blocks_bernoulli cfg = input_blocks_gaussian cfg := rfl
  have hmb : middle_block_bernoulli cfg = middle_block_gaussian cfg := rfl
  have hob : output_blocks_bernoulli cfg = output_blocks_gaussian cfg := rfl
  have hbias_c : cl + cl + chg = cfg.model_channels := by omega
  simp only [forwardShapes, hnc, hhw, Option.isSome_none, Option.isSome_some,
    if_true, if_pos rfl, Bool.false_eq_true, if_false, mfcmShape, catShapes,
    and_self, ite_true]
  simp only [Option.pure_def, Option.bind_eq_bind, Option.some_bind]
  rw [show ((⟨N, cl + cl + chg, h, w⟩ : Shape)) = ⟨N, cfg.model_channels, h, w⟩
    from by rw [hbias_c]]
  rw [show ((⟨N, 1 + 1, h, w⟩ : Shape)) = ⟨N, 2, h, w⟩ from rfl]
  rw [hib, hmb, hob]
  simp only [and_self, if_true, Option.some_bind]
  rw [hg, hb]
  rfl

/-- Witness for C1 at the spec's end-to-end configuration: batch 2, spatial
64×64, anchor widths `cl = 12`, `chg = 8` (so `2·12 + 8 = 32`), producing
shapes `(2, 2, 64, 64)` and `(2, 1, 64, 64)` plus the calibration map. -/
theorem c1_witness :
    ValidConfig cfgEx ∧ 1 ≤ 2 ∧ 0 < 64 ∧
      2 ^ (cfgEx.channel_mult.length - 1) ∣ 64 ∧ 2 * 12 + 8 = 32 ∧
      forwardShapes cfgEx 12 8 ⟨2, 1, 64, 64⟩ ⟨2, 3, 64, 64⟩ none
        = .ok (⟨2, 2, 64, 64⟩, ⟨2, 1, 64, 64⟩, ⟨2, 1, 64, 64⟩) :=
  ⟨by decide, by decide, by decide, by decide, by decide,
   c1_forward_output_shapes cfgEx 12 8 ⟨2, 1, 64, 64⟩ 2 64 64 (by decide)
     (by decide) (by decide) (by decide) (by decide) (by decide) (by decide)⟩

/-! ## Claim C4 — residual blocks compute the skip path at initialization

Value-level model of `ResBlock` (unet.py lines 141-254) over `ℚ`.
Convolutions, the embedding linear layer and the resampling operators are
modelled concretely.  GroupNorm (`normalization`) needs a square root and
SiLU needs `exp`, so those pointwise/normalizing layers enter the model as
arbitrary functions — the zero-initialization claim holds for *every* choice
of them, which is strictly stronger than holding for the concrete ones.
`zero_module` (guided_diffusion/nn.py, applied at line 208-210) zeroes every
parameter of the final convolution of `out_layers`, so the constructed-block
model has literal zero weights there. -/

/-- A rank-4 feature tensor over `ℚ`, indexed by batch, channel, and two
`Int` spatial coordinates (integer indices make convolution zero-padding
direct to express). -/
abbrev TensorQ : Type := Nat → Nat → Int → Int → ℚ

/-- A rank-2 tensor (batch, feature), as used for timestep embeddings. -/
abbrev EmbQ : Type := Nat → Nat → ℚ

/-- A 2-D convolution `conv_nd(2, cin, ·, k, padding=pad)` with weights
`wgt` and bias `bias` over an input of spatial extent `H × W`; reads outside
the extent are the zero padding. -/
def conv2dQ (cin k : Nat) (pad H W : Int) (wgt : Nat → Nat → Nat → Nat → ℚ)
    (bias : Nat → ℚ) (x : TensorQ) : TensorQ :=
  fun b o i j =>
    bias o + ∑ c ∈ Finset.range cin, ∑ u ∈ Finset.range k,
      ∑ v ∈ Finset.range k,
        wgt o c u v *
          (if 0 ≤ i + u - pad ∧ i + u - pad < H ∧ 0 ≤ j + v - pad
              ∧ j + v - pad < W
           then x b c (i + u - pad) (j + v - pad) else 0)

/-- The final convolution of `out_layers` immediately after construction:
`zero_module(conv_nd(dims, out_channels, out_channels, 3, padding=1))` has
every weight and bias zeroed. -/
def zeroConvQ (cout : Nat) (H W : Int) (x : TensorQ) : TensorQ :=
  conv2dQ cout 3 1 H W (fun _ _ _ _ => 0) (fun _ => 0) x

/-- `linear(emb_channels, ·)` on the embedding. -/
def linearQ (din : Nat) (wgt : Nat → Nat → ℚ) (bias : Nat → ℚ)
    (e : EmbQ) : EmbQ :=
  fun b o => bias o + ∑ i ∈ Finset.range din, wgt o i * e b i

/-- Pointwise application of a scalar function (SiLU, dropout masks…). -/
def mapQ (f : ℚ → ℚ) (x : TensorQ) : TensorQ := fun b c i j => f (x b c i j)

/-- `Downsample(channels, use_conv=False)` as used inside
`ResBlock(..., down=True)`: a kernel-2 stride-2 average pool. -/
def avgPool2Q (x : TensorQ) : TensorQ :=
  fun b c i j =>
    (x b c (2 * i) (2 * j) + x b c (2 * i + 1) (2 * j)
      + x b c (2 * i) (2 * j + 1) + x b c (2 * i + 1) (2 * j + 1)) / 4

/-- `Upsample(channels, use_conv=False)` as used inside
`ResBlock(..., up=True)`: nearest-neighbour interpolation by factor 2
(`out[i] = in[i / 2]` for the non-negative indices PyTorch uses). -/
def upsampleNearestQ (x : TensorQ) : TensorQ :=
  fun b c i j => x b c (i / 2) (j / 2)

/-- The constructor arguments and (post-construction) parameters of one
`ResBlock`.  `H`/`W` is the spatial extent of the block's input.  `normIn`
(`normalization(channels)`), `normOut` (`normalization(out_channels)`, the
`out_layers[0]` used separately in scale-shift mode), `silu` and `dropout`
are the abstractly-modelled layers. -/
structure ResBlockParams where
  channels : Nat
  emb_channels : Nat
  out_channels : Nat
  use_conv : Bool
  use_scale_shift_norm : Bool
  up : Bool
  down : Bool
  H : Int
  W : Int
  normIn : TensorQ → TensorQ
  normOut : TensorQ → TensorQ
  silu : ℚ → ℚ
  dropout : TensorQ → TensorQ
  inConvW : Nat → Nat → Nat → Nat → ℚ
  inConvB : Nat → ℚ
  embW : Nat → Nat → ℚ
  embB : Nat → ℚ
  skipW : Nat → Nat → Nat → Nat → ℚ
  skipB : Nat → ℚ

/-- Spatial height after the optional resampling (`h_upd`/`x_upd`). -/
def ResBlockParams.rH (p : ResBlockParams) : Int :=
  if p.up then p.H * 2 else if p.down then p.H / 2 else p.H

/-- Spatial width after the optional resampling. -/
def ResBlockParams.rW (p : ResBlockParams) : Int :=
  if p.up then p.W * 2 else if p.down then p.W / 2 else p.W

/-- `self.h_upd` / `self.x_upd`: `Upsample` if `up`, else `Downsample` if
`down`, else the identity (unet.py lines 188-195). -/
def ResBlockParams.resample (p : ResBlockParams) (x : TensorQ) : TensorQ :=
  if p.up then upsampleNearestQ x else if p.down then avgPool2Q x else x

/-- `self.skip_connection` applied to the (possibly resampled) `x`
(unet.py lines 213-220 and 254): the identity when the channel count is
unchanged, else a 3×3 convolution when `use_conv`, else a 1×1
convolution. -/
def resBlockSkip (p : ResBlockParams) (x : TensorQ) : TensorQ :=
  let x_upd := if p.up || p.down then p.resample x else x
  if p.out_channels = p.channels then x_upd
  else if p.use_conv then
    conv2dQ p.channels 3 1 p.rH p.rW p.skipW p.skipB x_upd
  else
    conv2dQ p.channels 1 0 p.rH p.rW p.skipW p.skipB x_upd

/-- `ResBlock._forward` (unet.py lines 234-254) immediately after
construction, when the final convolution of `out_layers` is the
`zero_module`-zeroed one.  With `up`/`down`, `in_layers` is split: the
normalization+SiLU prefix runs first, both branches are resampled, then the
final convolution of `in_layers` is applied (lines 235-240).  The embedding
passes through SiLU and the linear layer, is broadcast over the spatial
dimensions, and conditions the features additively or in scale-shift (FiLM)
style; the result goes through the zero convolution and is added to the skip
path. -/
def resBlockForwardInit (p : ResBlockParams) (x : TensorQ) (emb : EmbQ) :
    TensorQ :=
  let h :=
    if p.up || p.down then
      conv2dQ p.channels 3 1 p.rH p.rW p.inConvW p.inConvB
        (p.resample (mapQ p.silu (p.normIn x)))
    else
      conv2dQ p.channels 3 1 p.H p.W p.inConvW p.inConvB
        (mapQ p.silu (p.normIn x))
  let emb_out := linearQ p.emb_channels p.embW p.embB
    (fun b i => p.silu (emb b i))
  let hcond : TensorQ :=
    if p.use_scale_shift_norm then
      zeroConvQ p.out_channels p.rH p.rW
        (p.dropout (mapQ p.silu
          (fun b c i j =>
            p.normOut h b c i j * (1 + emb_out b c)
              + emb_out b (p.out_channels + c))))
    else
      zeroConvQ p.out_channels p.rH p.rW
        (p.dropout (mapQ p.silu
          (p.normOut (fun b c i j => h b c i j + emb_out b c))))
  fun b c i j => resBlockSkip p x b c i j + hcond b c i j

theorem conv2dQ_zero (cin k : Nat) (pad H W : Int) (x : TensorQ) (b o : Nat)
    (i j : Int) :
    conv2dQ cin k pad H W (fun _ _ _ _ => 0) (fun _ => 0) x b o i j = 0 := by
  simp [conv2dQ]

/-- C4: immediately after construction, for every input feature map, every
embedding, both conditioning modes (`use_scale_shift_norm` true or false),
every resampling variant, and every choice of the normalization / SiLU /
dropout layers and of the other layers' parameters, the residual block's
output equals the skip path applied to the (possibly resampled) input: the
zero-initialized final convolution of the out-transform contributes exactly
zero at every position. -/
theorem c4_resblock_init_identity (p : ResBlockParams) (x : TensorQ)
    (emb : EmbQ) (b c : Nat) (i j : Int) :
    resBlockForwardInit p x emb b c i j = resBlockSkip p x b c i j := by
  unfold resBlockForwardInit
  by_cases hss : p.use_scale_shift_norm <;>
    simp [hss, zeroConvQ, conv2dQ_zero]

/-! ## Claim C6 — the two attention head-splitting conventions

Value-level models over `ℝ` of `QKVAttentionLegacy.forward` (unet.py lines
335-352) and `QKVAttention.forward` (lines 368-387).  Both take the head
count `nH`, the per-head width `ch` (`width // (3 * n_heads)` in the
source) and the position count `T` explicitly, since function-tensors carry
no shape.  The `.float()` cast around the softmax is the identity in exact
real arithmetic. -/

/-- A rank-3 tensor over `ℝ` (batch, channel, position). -/
abbrev TensorR : Type := Nat → Nat → Nat → ℝ

/-- `th.softmax(·, dim=-1)` over positions `{0, …, T-1}`. -/
noncomputable def softmaxR (T : Nat) (f : Nat → ℝ) (s : Nat) : ℝ :=
  Real.exp (f s) / ∑ u ∈ Finset.range T, Real.exp (f u)

/-- `scale = 1 / math.sqrt(math.sqrt(ch))`, applied to both `q` and `k`
before the dot product. -/
noncomputable def attnScale (ch : Nat) : ℝ :=
  1 / Real.sqrt (Real.sqrt ch)

/-- `QKVAttentionLegacy.forward`: reshape the `[N × (nH·3·ch) × T]` input to
`(N·nH, 3·ch, T)` and then `split(ch, dim=1)` into `q`, `k`, `v` — split
heads before splitting q/k/v.  The final `reshape(bs, -1, length)` makes
output entry `(b, wd, t)` read head `wd / ch`, head-channel `wd % ch`. -/
noncomputable def qkvAttentionLegacy (nH ch T : Nat) (qkv : TensorR) :
    TensorR :=
  let q : TensorR := fun B c t => qkv (B / nH) (B % nH * (3 * ch) + c) t
  let k : TensorR := fun B c s => qkv (B / nH) (B % nH * (3 * ch) + (ch + c)) s
  let v : TensorR := fun B c s =>
    qkv (B / nH) (B % nH * (3 * ch) + (2 * ch + c)) s
  let weight := fun B t s =>
    softmaxR T (fun u => ∑ c ∈ Finset.range ch,
      q B c t * attnScale ch * (k B c u * attnScale ch)) s
  let a : TensorR := fun B c t => ∑ s ∈ Finset.range T, weight B t s * v B c s
  fun b wd t => a (b * nH + wd / ch) (wd % ch) t

/-- `QKVAttention.forward`: `chunk(3, dim=1)` the `[N × (3·nH·ch) × T]`
input into `q`, `k`, `v` first (each `N × (nH·ch) × T`), then view each as
`(N·nH, ch, T)` — split q/k/v before splitting heads. -/
noncomputable def qkvAttention (nH ch T : Nat) (qkv : TensorR) : TensorR :=
  let qh : TensorR := fun B c t =>
    qkv (B / nH) (B % nH * ch + c) t * attnScale ch
  let kh : TensorR := fun B c s =>
    qkv (B / nH) (nH * ch + (B % nH * ch + c)) s * attnScale ch
  let vh : TensorR := fun B c s =>
    qkv (B / nH) (2 * (nH * ch) + (B % nH * ch + c)) s
  let weight := fun B t s =>
    softmaxR T (fun u => ∑ c ∈ Finset.range ch, qh B c t * kh B c u) s
  let a : TensorR := fun B c t => ∑ s ∈ Finset.range T, weight B t s * vh B c s
  fun b wd t => a (b * nH + wd / ch) (wd % ch) t

/-- C6 counterexample: the two conventions applied to the *same* qkv tensor
do not agree.  With `nH = 2`, `ch = 1`, `T = 1` (softmax over a single key
is exactly 1) and the tensor whose value at channel `i` is `i`, the
`QKVAttention` reading of head 0's value channel is channel 4 while the
`QKVAttentionLegacy` reading is channel 2, so the outputs are 4 ≠ 2. -/
theorem c6_counterexample :
    qkvAttention 2 1 1 (fun _ i _ => (i : ℝ)) 0 0 0
      ≠ qkvAttentionLegacy 2 1 1 (fun _ i _ => (i : ℝ)) 0 0 0 := by
  have hexp : ∀ z : ℝ, Real.exp z / Real.exp z = 1 :=
    fun z => div_self (Real.exp_ne_zero z)
  simp only [qkvAttention, qkvAttentionLegacy, softmaxR,
    Finset.sum_range_one]
  norm_num [hexp]

/-- The channel reindexing from the `QKVAttention` layout
(`s·(nH·ch) + head·ch + c` for segment `s ∈ {q,k,v}`) to the
`QKVAttentionLegacy` layout (`head·(3·ch) + s·ch + c`). -/
def qkvPermIndex (nH ch : Nat) (i : Nat) : Nat :=
  i % (nH * ch) % ch + i % (nH * ch) / ch * (3 * ch) + i / (nH * ch) * ch

/-- Reinterleave the channels of a qkv tensor between the two layouts. -/
def permuteQKV (nH ch : Nat) (qkv : TensorR) : TensorR :=
  fun b i t => qkv b (qkvPermIndex nH ch i) t

theorem qkvPermIndex_eval (nH ch s hd c : Nat) (hhd : hd < nH)
    (hc : c < ch) :
    qkvPermIndex nH ch (s * (nH * ch) + (hd * ch + c))
      = hd * (3 * ch) + (s * ch + c) := by
  have hr : hd * ch + c < nH * ch := by
    have h1 : hd * ch + c < (hd + 1) * ch := by
      rw [Nat.succ_mul]
      omega
    exact lt_of_lt_of_le h1 (Nat.mul_le_mul_right _ (by omega))
  have hC : 0 < nH * ch := Nat.mul_pos (by omega) (by omega)
  unfold qkvPermIndex
  rw [show s * (nH * ch) + (hd * ch + c) = hd * ch + c + nH * ch * s by ring]
  rw [Nat.add_mul_div_left _ _ hC, Nat.add_mul_mod_self_left,
    Nat.div_eq_of_lt hr, Nat.mod_eq_of_lt hr]
  rw [show hd * ch + c = c + ch * hd by ring]
  rw [Nat.add_mul_div_left _ _ (by omega : 0 < ch), Nat.add_mul_mod_self_left,
    Nat.div_eq_of_lt hc, Nat.mod_eq_of_lt hc]
  ring

/-- C6 (amended): the two head-splitting conventions compute identical
outputs for the same weights once the produced qkv tensor is reinterleaved
between the two layouts: `QKVAttention` applied to the reindexed tensor
agrees with `QKVAttentionLegacy` applied to the original, at every head
count, per-head width, position count and output position.  (For
`num_heads = 1` the reindexing is the identity, so there the two modules
agree on the very same tensor.) -/
theorem c6_attention_orders_equiv (nH ch T : Nat) (qkv : TensorR)
    (b wd t : Nat) (hH : 0 < nH) (hch : 0 < ch) :
    qkvAttention nH ch T (permuteQKV nH ch qkv) b wd t
      = qkvAttentionLegacy nH ch T qkv b wd t := by
  have hhd : (b * nH + wd / ch) % nH < nH := Nat.mod_lt _ hH
  have hq : ∀ c tq, c < ch →
      permuteQKV nH ch qkv ((b * nH + wd / ch) / nH)
          ((b * nH + wd / ch) % nH * ch + c) tq
        = qkv ((b * nH + wd / ch) / nH)
            ((b * nH + wd / ch) % nH * (3 * ch) + c) tq := by
    intro c tq hc
    unfold permuteQKV
    rw [show (b * nH + wd / ch) % nH * ch + c
        = 0 * (nH * ch) + ((b * nH + wd / ch) % nH * ch + c) by ring,
      qkvPermIndex_eval nH ch 0 _ c hhd hc]
    norm_num
  have hk : ∀ c u, c < ch →
      permuteQKV nH ch qkv ((b * nH + wd / ch) / nH)
          (nH * ch + ((b * nH + wd / ch) % nH * ch + c)) u
        = qkv ((b * nH + wd / ch) / nH)
            ((b * nH + wd / ch) % nH * (3 * ch) + (ch + c)) u := by
    intro c u hc
    unfold permuteQKV
    rw [show nH * ch + ((b * nH + wd / ch) % nH * ch + c)
        = 1 * (nH * ch) + ((b * nH + wd / ch) % nH * ch + c) by ring,
      qkvPermIndex_eval nH ch 1 _ c hhd hc]
    ring_nf
  have hv : ∀ c s, c < ch →
      permuteQKV nH ch qkv ((b * nH + wd / ch) / nH)
          (2 * (nH * ch) + ((b * nH + wd / ch) % nH * ch + c)) s
        = qkv ((b * nH + wd / ch) / nH)
            ((b * nH + wd / ch) % nH * (3 * ch) + (2 * ch + c)) s := by
    intro c s hc
    unfold permuteQKV
    rw [qkvPermIndex_eval nH ch 2 _ c hhd hc]
  simp only [qkvAttention, qkvAttentionLegacy]
  refine Finset.sum_congr rfl fun s hs => ?_
  have hc0 : wd % ch < ch := Nat.mod_lt _ hch
  congr 1
  · unfold softmaxR
    have hfe : (fun u => ∑ c ∈ Finset.range ch,
          permuteQKV nH ch qkv ((b * nH + wd / ch) / nH)
              ((b * nH + wd / ch) % nH * ch + c) t * attnScale ch
            * (permuteQKV nH ch qkv ((b * nH + wd / ch) / nH)
                (nH * ch + ((b * nH + wd / ch) % nH * ch + c)) u
              * attnScale ch))
        = (fun u => ∑ c ∈ Finset.range ch,
          qkv ((b * nH + wd / ch) / nH)
              ((b * nH + wd / ch) % nH * (3 * ch) + c) t * attnScale ch
            * (qkv ((b * nH + wd / ch) / nH)
                ((b * nH + wd / ch) % nH * (3 * ch) + (ch + c)) u
              * attnScale ch)) := by
      funext u
      refine Finset.sum_congr rfl fun c hc => ?_
      rw [Finset.mem_range] at hc
      rw [hq c t hc, hk c u hc]
    rw [hfe]
  · exact hv (wd % ch) s hc0

/-- Witness for C6 (amended) at `nH = 2`, `ch = 1`, `T = 1`, the identity
tensor and output position `(0, 0, 0)`. -/
theorem c6_witness :
    (0 : Nat) < 2 ∧ (0 : Nat) < 1 ∧
      qkvAttention 2 1 1 (permuteQKV 2 1 (fun _ i _ => (i : ℝ))) 0 0 0
        = qkvAttentionLegacy 2 1 1 (fun _ i _ => (i : ℝ)) 0 0 0 :=
  ⟨by decide, by decide,
   c6_attention_orders_equiv 2 1 1 (fun _ i _ => (i : ℝ)) 0 0 0
     (by decide) (by decide)⟩

end EchoDND
